import Mathlib

/-!
# microcasette: ATtiny13A firmware driving a DFPlayer module

Shallow embedding of `src/main.cpp`.  The globals of the program (`PORTB`, `lfsr`, `seeded`,
`wake_flag`) are the fields of one record `Mcu` that every routine takes and returns.  Machine
integers are natural numbers; truncation to `uint8_t` / `uint16_t` is written `% 256` / `% 65536`
at the places where the C code converts.  The target has a 16-bit `int`.
-/

namespace Microcasette

/-! ## User settings (lines 24-31) -/

def FOLDER1 : Nat := 0x01
def FILE1_MIN : Nat := 1
def FILE1_MAX : Nat := 27
def FOLDER2 : Nat := 0x02
def FILE2_MIN : Nat := 1
def FILE2_MAX : Nat := 43
def WEIGHT_FOLDER1 : Nat := 90
def SLEEP_TIMEOUT : Nat := 60000

/-! ## Pins (lines 37-51) -/

/-- Modelled from the spec: `PORTB4` is declared in `avr/io.h`, a toolchain header outside the
repository; the pin table of `main.cpp` (PB4: TX) gives bit 4 of PORTB. -/
def TX_BIT : Nat := 4

/-- Modelled from the spec: `PORTB1` is declared in `avr/io.h`, a toolchain header outside the
repository; the pin table of `main.cpp` (PB1: DFPlayer power control) gives bit 1 of PORTB. -/
def PWR_BIT : Nat := 1

/-- Modelled from the spec: `PINB3` is declared in `avr/io.h`, a toolchain header outside the
repository; the pin table of `main.cpp` (PB3: button) gives bit 3. -/
def BTN_BIT : Nat := 3

/-! ## Machine state -/

/-- The program state: the output register `PORTB`, the three globals of `main.cpp`, and the
history `wire` of the TX port: one entry, the value of `PORTB`, for every bit period
`_delay_us(104)` that has elapsed. -/
structure Mcu where
  portb : Nat
  lfsr : Nat
  seeded : Nat
  wake_flag : Nat
  wire : List Nat
  deriving DecidableEq

/-- State at program start: `lfsr = 0xACE1`, `seeded = 0`, `wake_flag = 0` (lines 58, 59, 95),
with a given value of `PORTB` and nothing sent yet. -/
def Mcu.boot (portb : Nat) : Mcu :=
  { portb := portb, lfsr := 0xACE1, seeded := 0, wake_flag := 0, wire := [] }

/-! ## Power control helpers (lines 54-55) -/

/-- The statement `PORTB |= (1 << bit)`. -/
def port_set (bit : Nat) (m : Mcu) : Mcu :=
  { m with portb := m.portb ||| (1 <<< bit) }

/-- The statement `PORTB &= ~(1 << bit)`; the register is 8 bits wide, so only the low byte of the
complement matters. -/
def port_clr (bit : Nat) (m : Mcu) : Mcu :=
  { m with portb := m.portb &&& (0xFF ^^^ (1 <<< bit)) }

/-- Function `df_power_on` (line 54). -/
def df_power_on (m : Mcu) : Mcu := port_set PWR_BIT m

/-- Function `df_power_off` (line 55). -/
def df_power_off (m : Mcu) : Mcu := port_clr PWR_BIT m

/-! ## RNG (lines 58-69) -/

/-- Function `rand16` (lines 61-66): returns the new register value together with the new
state. -/
def rand16 (m : Mcu) : Nat × Mcu :=
  let lsb := m.lfsr &&& 1
  let m := { m with lfsr := m.lfsr >>> 1 }
  let m := if lsb ≠ 0 then { m with lfsr := m.lfsr ^^^ 0xB400 } else m
  (m.lfsr, m)

/-- Function `seed_rng_once` (lines 67-69); `tcnt0` is the value read from the free-running
8-bit hardware counter `TCNT0` at the moment of the call. -/
def seed_rng_once (tcnt0 : Nat) (m : Mcu) : Mcu :=
  if m.seeded = 0 then { m with lfsr := m.lfsr ^^^ (tcnt0 % 256), seeded := 1 } else m

/-! ## Bit-banged UART TX (lines 72-86) -/

/-- The call `_delay_us(104)`: one bit period elapses with `PORTB` held at its current value. -/
def delay_bit (m : Mcu) : Mcu :=
  { m with wire := m.wire ++ [m.portb] }

/-- The `for` loop of `tx_byte` (lines 77-82), `n` iterations left. -/
def tx_data_bits : Nat → Nat → Mcu → Mcu
  | 0, _, m => m
  | n + 1, b, m =>
    let m := if b &&& 1 ≠ 0 then port_set TX_BIT m else port_clr TX_BIT m
    let m := delay_bit m
    tx_data_bits n (b >>> 1) m

/-- Function `tx_byte` (lines 72-86); the parameter is a `uint8_t`. -/
def tx_byte (b : Nat) (m : Mcu) : Mcu :=
  let b := b % 256
  let m := port_clr TX_BIT m
  let m := delay_bit m
  let m := tx_data_bits 8 b m
  let m := port_set TX_BIT m
  delay_bit m

/-! ## Protocol framer (lines 88-92) -/

/-- The local `sum` of `send_pkt` (line 89): `0 - (...)` is computed in `int` and converted to
`uint16_t`.  For bytes the bracket is at most 1026, so the 16-bit `int` does not overflow and
the conversion is the only reduction. -/
def pkt_sum (cmd dh dl : Nat) : Nat :=
  ((0 - (0xFF + 0x06 + (cmd : Int) + 0x00 + (dh : Int) + (dl : Int))) % 65536).toNat

/-- The local array `p` of `send_pkt` (line 90). -/
def pkt (cmd dh dl : Nat) : List Nat :=
  let sum := pkt_sum cmd dh dl
  [0x7E, 0xFF, 0x06, cmd, 0x00, dh, dl, (sum >>> 8) % 256, sum % 256, 0xEF]

/-- Function `send_pkt` (lines 88-92): the ten bytes of `p` go to `tx_byte` in index order. -/
def send_pkt (cmd dh dl : Nat) (m : Mcu) : Mcu :=
  (pkt cmd dh dl).foldl (fun m b => tx_byte b m) m

/-! ## Random play (lines 108-120) -/

/-- Function `play_random` (lines 108-120); `tcnt0` is the counter value `seed_rng_once` would
read. -/
def play_random (tcnt0 : Nat) (m : Mcu) : Mcu :=
  let m := seed_rng_once tcnt0 m
  let r := rand16 m
  let pick := (r.1 % 100) % 256
  let m := r.2
  let sel : Nat × Nat × Mcu :=
    if pick < WEIGHT_FOLDER1 then
      let r := rand16 m
      (FOLDER1, (FILE1_MIN + r.1 % (FILE1_MAX - FILE1_MIN + 1)) % 256, r.2)
    else
      let r := rand16 m
      (FOLDER2, (FILE2_MIN + r.1 % (FILE2_MAX - FILE2_MIN + 1)) % 256, r.2)
  send_pkt 0x0F sel.1 sel.2.1 sel.2.2

/-! ## Observers

What a receiver on the TX line reads back from the history `wire`.  These are not part of the
firmware; they give the theorems a way to speak about the bytes that were transmitted. -/

/-- Level of the TX line in one recorded value of `PORTB`. -/
def line_level (portb : Nat) : Nat := (portb >>> TX_BIT) &&& 1

/-- Value of the data bits in a list of line samples, first sample least significant. -/
def bits_value : List Nat → Nat
  | [] => 0
  | s :: rest => line_level s + 2 * bits_value rest

/-- Reads the history in 8N1 characters of ten bit periods (start, eight data bits, stop) and
returns the data byte of each. -/
def uart_rx : List Nat → List Nat
  | _ :: d0 :: d1 :: d2 :: d3 :: d4 :: d5 :: d6 :: d7 :: _ :: rest =>
    bits_value [d0, d1, d2, d3, d4, d5, d6, d7] :: uart_rx rest
  | _ => []

/-- Bytes transmitted between state `m` and the later state `m1`. -/
def sent_between (m m1 : Mcu) : List Nat :=
  uart_rx (m1.wire.drop m.wire.length)

/-- Register value after one `rand16` call from register value `s`. -/
def lfsr_next (s : Nat) : Nat :=
  (rand16 { portb := 0, lfsr := s, seeded := 0, wake_flag := 0, wire := [] }).2.lfsr

/-- The values returned by `n` successive `rand16` calls starting from register value `s`. -/
def lfsr_outputs : Nat → Nat → List Nat
  | 0, _ => []
  | n + 1, s => lfsr_next s :: lfsr_outputs n (lfsr_next s)

/-- Register value after `n` `rand16` calls from `s`, each update evaluated before the next one
starts; equal to `lfsr_next^[n] s` (`lfsr_run_eq_iterate`). -/
def lfsr_run : Nat → Nat → Nat
  | 0, s => s
  | n + 1, s =>
    match lfsr_next s with
    | 0 => 0
    | t + 1 => lfsr_run n (t + 1)

/-- Whether a `rand16` output `v` makes `play_random` choose folder 1: the test
`pick < WEIGHT_FOLDER1` of line 112 with `pick = v % 100` (line 110). -/
def picks_folder1 (v : Nat) : Bool := decide ((v % 100) % 256 < WEIGHT_FOLDER1)

/-- Number of `rand16` outputs choosing folder 1 among the first `n` outputs from register `s`. -/
def folder1_draws (n s : Nat) : Nat := ((lfsr_outputs n s).filter picks_folder1).length

/-! ## Module bring-up (lines 99-105) -/

/-- The call `_delay_ms(ms)`: a busy wait; time passes and no modelled state changes. -/
def delay_ms (_ms : Nat) (m : Mcu) : Mcu := m

/-- Function `df_init` (lines 99-105). -/
def df_init (m : Mcu) : Mcu :=
  let m := delay_ms 2000 m
  let m := send_pkt 0x09 0x00 0x02 m
  let m := delay_ms 300 m
  let m := send_pkt 0x06 0x00 0x1C m
  delay_ms 50 m

/-- A sequence of `play_random` calls, one per counter value in the list. -/
def play_many (tcnts : List Nat) (m : Mcu) : Mcu :=
  tcnts.foldl (fun m t => play_random t m) m

/-! ## The control loop of `main` (lines 122-191)

`main` never returns; it is embedded as a step function.  A step runs the program from one
point where it consults its environment (a pin read, the wake flag, the wake-up from sleep) to
the next.  The environment of a step is an `Input`.

The pin-change interrupt may arrive at any time.  Its routine only sets `wake_flag`, which the
program reads on line 148 alone and clears on lines 149 and 185, so an interrupt that arrives
in the middle of a step has the effect of one served either before that step or before the
next; the model serves it before a step.  While the CPU sleeps a step without interrupt leaves
the state as it is; likewise a step of the busy wait on line 161 while the button is held. -/

/-- Modelled from the spec: `DDB3` is declared in `avr/io.h`, a toolchain header outside the
repository; the pin table of `main.cpp` (PB3: button) gives bit 3. -/
def BTN_DDB : Nat := 3

/-- What the environment supplies to one step: whether the pin-change interrupt is served
before the step, and the values a read of `PINB` and of `TCNT0` returns during the step. -/
structure Input where
  irq : Bool
  pinb : Nat
  tcnt0 : Nat
  deriving DecidableEq

/-- Control points of `main`: `outer` is line 145 (about to call `df_init`), `check` line 148
(about to test `wake_flag`), `poll` line 157 (first button read), `debounce` line 159 (second
read, after 30 ms), `wait_release` line 161 (busy wait for release) and `asleep` line 179
(inside `sleep_cpu`). -/
inductive Loc where
  | outer
  | check
  | poll
  | debounce
  | wait_release
  | asleep
  deriving DecidableEq

/-- Calls that `main` makes, in the order it makes them; `df_init` and `play_random` are
recorded with the level of the power-rail bit PB1 at the moment of the call. -/
inductive Ev where
  | df_power_on
  | df_power_off
  | df_init (pwr : Bool)
  | play_random (pwr : Bool)
  deriving DecidableEq

/-- State of `main`: the machine state, the control point, the local `idle_ms` (line 154) and
the record `log` of the calls made so far. -/
structure Main where
  mcu : Mcu
  loc : Loc
  idle_ms : Nat
  log : List Ev
  deriving DecidableEq

/-- The interrupt routine `ISR(PCINT0_vect)` (line 96). -/
def isr_pcint0 (m : Mcu) : Mcu := { m with wake_flag := 1 }

/-- The test `!(BTN_PIN & (1 << BTN_BIT))` (lines 157, 159, 161) on a value read from `PINB`. -/
def btn_pressed (pinb : Nat) : Bool := decide (pinb &&& (1 <<< BTN_BIT) = 0)

/-- A call of `df_power_on` from `main`. -/
def call_df_power_on (s : Main) : Main :=
  { s with mcu := df_power_on s.mcu, log := s.log ++ [Ev.df_power_on] }

/-- A call of `df_power_off` from `main`. -/
def call_df_power_off (s : Main) : Main :=
  { s with mcu := df_power_off s.mcu, log := s.log ++ [Ev.df_power_off] }

/-- A call of `df_init` from `main`. -/
def call_df_init (s : Main) : Main :=
  { s with mcu := df_init s.mcu, log := s.log ++ [Ev.df_init (s.mcu.portb.testBit PWR_BIT)] }

/-- A call of `play_random` from `main`. -/
def call_play_random (tcnt0 : Nat) (s : Main) : Main :=
  { s with mcu := play_random tcnt0 s.mcu,
           log := s.log ++ [Ev.play_random (s.mcu.portb.testBit PWR_BIT)] }

/-- The start of `main` (lines 124-141) from the reset state with `PORTB = portb`: pull-up on
the button, TX idle high, `df_power_on`; the data-direction, interrupt and timer registers are
not modelled.  Control then stands at the top of the outer loop. -/
def main_init (portb : Nat) : Main :=
  let m := Mcu.boot portb
  let m := port_set BTN_DDB m
  let m := port_set TX_BIT m
  call_df_power_on { mcu := m, loc := Loc.outer, idle_ms := 0, log := [] }

/-- The tail of one pass of the active loop (lines 167-181): wait 10 ms, add 10 to the 16-bit
`idle_ms`, and at the timeout switch the module off and go to sleep.  The constant 60000 does
not fit the 16-bit `int`, so it has type `long` and the comparison is made on the true values. -/
def idle_tick (s : Main) : Main :=
  let s := { s with mcu := delay_ms 10 s.mcu }
  let s := { s with idle_ms := (s.idle_ms + 10) % 65536 }
  if s.idle_ms ≥ SLEEP_TIMEOUT then
    let s := call_df_power_off s
    let s := { s with mcu := delay_ms 10 s.mcu }
    { s with loc := Loc.asleep }
  else
    { s with loc := Loc.poll }

/-- The code after `sleep_cpu` returns (lines 180-187). -/
def wake_up (tcnt0 : Nat) (s : Main) : Main :=
  let s := call_df_power_on s
  let s := call_df_init s
  let s := { s with mcu := { s.mcu with wake_flag := 0 } }
  let s := call_play_random tcnt0 s
  { s with loc := Loc.outer }

/-- The program from one control point to the next, under the environment `i`. -/
def main_body (i : Input) (s : Main) : Main :=
  match s.loc with
  | Loc.outer =>
    let s := call_df_init s
    { s with loc := Loc.check }
  | Loc.check =>
    let s :=
      if s.mcu.wake_flag ≠ 0 then
        let s := { s with mcu := { s.mcu with wake_flag := 0 } }
        call_play_random i.tcnt0 s
      else s
    { s with idle_ms := 0, loc := Loc.poll }
  | Loc.poll =>
    if btn_pressed i.pinb then
      let s := { s with mcu := delay_ms 30 s.mcu }
      { s with loc := Loc.debounce }
    else idle_tick s
  | Loc.debounce =>
    if btn_pressed i.pinb then
      let s := call_play_random i.tcnt0 s
      { s with loc := Loc.wait_release }
    else idle_tick s
  | Loc.wait_release =>
    if btn_pressed i.pinb then s
    else
      let s := { s with mcu := delay_ms 50 s.mcu }
      let s := { s with idle_ms := 0 }
      idle_tick s
  | Loc.asleep =>
    if i.irq then wake_up i.tcnt0 s else s

/-- The interrupt, when the environment raises it, is served before the step. -/
def serve_irq (i : Input) (s : Main) : Main :=
  if i.irq then { s with mcu := isr_pcint0 s.mcu } else s

/-- One step of `main` under the environment `i`. -/
def main_step (i : Input) (s : Main) : Main :=
  main_body i (serve_irq i s)

/-- The state of `main` after the steps driven by `ins`, from reset with `PORTB = portb`. -/
def main_run (portb : Nat) (ins : List Input) : Main :=
  ins.foldl (fun s i => main_step i s) (main_init portb)

/-- The state after the steps driven by `ins` from state `s`. -/
def main_steps (ins : List Input) (s : Main) : Main :=
  ins.foldl (fun s i => main_step i s) s

/-! ## Observers of the power sequence

The device power state of the specification (off, powering, ready), read off the record of
calls.  Not part of the firmware. -/

/-- Power state of the playback module as the specification describes it. -/
inductive PowerState where
  | off
  | powering
  | ready
  deriving DecidableEq

/-- Power state after one more call. -/
def spec_power_next : PowerState → Ev → PowerState
  | _, Ev.df_power_on => PowerState.powering
  | _, Ev.df_power_off => PowerState.off
  | PowerState.off, Ev.df_init _ => PowerState.off
  | _, Ev.df_init _ => PowerState.ready
  | st, Ev.play_random _ => st

/-- Power state after the calls of `log`, starting from `st`. -/
def spec_power (st : PowerState) (log : List Ev) : PowerState :=
  log.foldl spec_power_next st

/-- Whether a call is allowed in power state `st`: `df_init` needs the rail bit high and the
module not off, `play_random` needs the rail bit high and the module ready. -/
def spec_event_ok : PowerState → Ev → Bool
  | st, Ev.df_init pwr => pwr && decide (st ≠ PowerState.off)
  | st, Ev.play_random pwr => pwr && decide (st = PowerState.ready)
  | _, Ev.df_power_on => true
  | _, Ev.df_power_off => true

/-- Whether every call of `log` is allowed in the power state reached before it. -/
def spec_log_ok : PowerState → List Ev → Bool
  | _, [] => true
  | st, e :: rest => spec_event_ok st e && spec_log_ok (spec_power_next st e) rest

/-- Invariant of the RNG globals: the register is a non-zero 16-bit value, and equals the
initial `0xACE1` as long as the seed flag is clear. -/
def rng_ok (m : Mcu) : Prop :=
  m.lfsr ≠ 0 ∧ m.lfsr < 65536 ∧ (m.seeded = 0 → m.lfsr = 0xACE1)

/-- Invariant tying the machine state to the record of calls: the RNG globals are sound, every
recorded line sample was taken with the power rail high, every recorded call was allowed, and
the rail bit PB1 is high exactly when the record says the module is not off. -/
def power_inv (m : Mcu) (log : List Ev) : Prop :=
  rng_ok m ∧
  (∀ x ∈ m.wire, x.testBit PWR_BIT = true) ∧
  spec_log_ok PowerState.off log = true ∧
  (m.portb.testBit PWR_BIT = true ↔ spec_power PowerState.off log ≠ PowerState.off)

/-- Invariant of the control loop, used to prove the properties of all executions. -/
def main_inv (s : Main) : Prop :=
  power_inv s.mcu s.log ∧
  s.idle_ms ≤ 60000 ∧
  ((s.loc = Loc.poll ∨ s.loc = Loc.debounce ∨ s.loc = Loc.wait_release) →
    s.idle_ms ≤ 59990 ∧ s.idle_ms % 10 = 0) ∧
  (s.loc = Loc.asleep → spec_power PowerState.off s.log = PowerState.off) ∧
  (s.loc = Loc.outer → spec_power PowerState.off s.log ≠ PowerState.off) ∧
  (s.loc ≠ Loc.asleep → s.loc ≠ Loc.outer →
    spec_power PowerState.off s.log = PowerState.ready)

/-- Number of `df_init` calls in `log` since the last `df_power_on` (all of them if there is
none). -/
def inits_since_power_on : List Ev → Nat
  | [] => 0
  | e :: rest =>
    if Ev.df_power_on ∈ rest then inits_since_power_on rest
    else (match e with
      | Ev.df_init _ => 1
      | _ => 0) + inits_since_power_on rest

/-- The frames in a list of received bytes, ten bytes each. -/
def frames : List Nat → List (List Nat)
  | b0 :: b1 :: b2 :: b3 :: b4 :: b5 :: b6 :: b7 :: b8 :: b9 :: rest =>
    [b0, b1, b2, b3, b4, b5, b6, b7, b8, b9] :: frames rest
  | _ => []

/-! ## The framer and the transmitter -/

theorem pkt_sum_eq (cmd dh dl : Nat) (hc : cmd < 256) (hh : dh < 256) (hl : dl < 256) :
    pkt_sum cmd dh dl = 65536 - (261 + cmd + dh + dl) := by
  unfold pkt_sum
  omega

theorem line_level_eq (p : Nat) : line_level p = (p.testBit 4).toNat := by
  have h := Nat.testBit_to_div_mod (x := p) (i := 4)
  simp only [line_level, TX_BIT, Nat.shiftRight_eq_div_pow, Nat.and_one_is_mod]
  rw [h]
  norm_num at *
  rcases Nat.mod_two_eq_zero_or_one (p / 16) with h0 | h1
  · simp [h0]
  · simp [h1]

theorem line_level_set (p : Nat) : line_level (p ||| (1 <<< TX_BIT)) = 1 := by
  have h16 : Nat.testBit 16 4 = true := by decide
  rw [line_level_eq, Nat.testBit_or]
  simp [TX_BIT, h16]

theorem line_level_clr (p : Nat) : line_level (p &&& (0xFF ^^^ (1 <<< TX_BIT))) = 0 := by
  have h239 : Nat.testBit 239 4 = false := by decide
  rw [line_level_eq, Nat.testBit_and]
  simp [TX_BIT, h239]

theorem tx_data_bits_fields (n b : Nat) (m : Mcu) :
    (tx_data_bits n b m).lfsr = m.lfsr ∧ (tx_data_bits n b m).seeded = m.seeded ∧
    (tx_data_bits n b m).wake_flag = m.wake_flag := by
  induction n generalizing b m with
  | zero => simp [tx_data_bits]
  | succ n ih =>
    simp only [tx_data_bits]
    obtain ⟨h1, h2, h3⟩ := ih (b >>> 1)
      (delay_bit (if b &&& 1 ≠ 0 then port_set TX_BIT m else port_clr TX_BIT m))
    rw [h1, h2, h3]
    split <;> simp [delay_bit, port_set, port_clr]

theorem tx_data_bits_wire (n b : Nat) (m : Mcu) :
    ∃ w : List Nat, (tx_data_bits n b m).wire = m.wire ++ w ∧ w.length = n ∧
      bits_value w = b % 2 ^ n := by
  induction n generalizing b m with
  | zero => exact ⟨[], by simp [tx_data_bits, bits_value, Nat.mod_one]⟩
  | succ n ih =>
    obtain ⟨w, hw, hlen, hval⟩ := ih (b >>> 1)
      (delay_bit (if b &&& 1 ≠ 0 then port_set TX_BIT m else port_clr TX_BIT m))
    refine ⟨(if b &&& 1 ≠ 0 then port_set TX_BIT m else port_clr TX_BIT m).portb :: w, ?_, ?_, ?_⟩
    · simp only [tx_data_bits]
      rw [hw]
      split <;> simp [delay_bit, port_set, port_clr]
    · simp [hlen]
    · simp only [bits_value, hval, Nat.and_one_is_mod, Nat.shiftRight_eq_div_pow]
      have hb : b % 2 ^ (n + 1) = b % 2 + 2 * ((b / 2) % 2 ^ n) := by
        rw [pow_succ', Nat.mod_mul]
      rw [hb]
      rcases Nat.mod_two_eq_zero_or_one b with h0 | h1
      · simp [h0, port_clr, line_level_clr]
      · simp [h1, port_set, line_level_set]

theorem uart_rx_char (s t : Nat) (w rest : List Nat) (hw : w.length = 8) :
    uart_rx (s :: w ++ [t] ++ rest) = bits_value w :: uart_rx rest := by
  match w, hw with
  | [d0, d1, d2, d3, d4, d5, d6, d7], _ => simp [uart_rx]

theorem tx_byte_fields (b : Nat) (m : Mcu) :
    (tx_byte b m).lfsr = m.lfsr ∧ (tx_byte b m).seeded = m.seeded ∧
    (tx_byte b m).wake_flag = m.wake_flag := by
  obtain ⟨h1, h2, h3⟩ := tx_data_bits_fields 8 (b % 256) (delay_bit (port_clr TX_BIT m))
  simp only [tx_byte, delay_bit, port_set]
  simp only [delay_bit, port_clr] at h1 h2 h3
  simp [port_clr, h1, h2, h3]

theorem tx_byte_wire (b : Nat) (m : Mcu) :
    ∃ w : List Nat, (tx_byte b m).wire = m.wire ++ w ∧ w.length = 10 ∧
      ∀ rest, uart_rx (w ++ rest) = b % 256 :: uart_rx rest := by
  obtain ⟨w, hw, hlen, hval⟩ := tx_data_bits_wire 8 (b % 256) (delay_bit (port_clr TX_BIT m))
  refine ⟨(port_clr TX_BIT m).portb :: w ++
    [(port_set TX_BIT (tx_data_bits 8 (b % 256) (delay_bit (port_clr TX_BIT m)))).portb], ?_, ?_, ?_⟩
  · have h1 : (tx_byte b m).wire =
        (tx_data_bits 8 (b % 256) (delay_bit (port_clr TX_BIT m))).wire ++
        [(port_set TX_BIT (tx_data_bits 8 (b % 256) (delay_bit (port_clr TX_BIT m)))).portb] := rfl
    have h2 : (delay_bit (port_clr TX_BIT m)).wire = m.wire ++ [(port_clr TX_BIT m).portb] := rfl
    rw [h1, hw, h2]
    simp
  · simp [hlen]
  · intro rest
    rw [uart_rx_char _ _ w rest hlen, hval]
    simp

theorem tx_bytes_fields (bs : List Nat) (m : Mcu) :
    (bs.foldl (fun m b => tx_byte b m) m).lfsr = m.lfsr ∧
    (bs.foldl (fun m b => tx_byte b m) m).seeded = m.seeded ∧
    (bs.foldl (fun m b => tx_byte b m) m).wake_flag = m.wake_flag := by
  induction bs generalizing m with
  | nil => simp
  | cons b bs ih =>
    obtain ⟨h1, h2, h3⟩ := ih (tx_byte b m)
    obtain ⟨g1, g2, g3⟩ := tx_byte_fields b m
    simp only [List.foldl_cons]
    exact ⟨h1.trans g1, h2.trans g2, h3.trans g3⟩

theorem tx_bytes_wire (bs : List Nat) (m : Mcu) :
    ∃ w : List Nat, (bs.foldl (fun m b => tx_byte b m) m).wire = m.wire ++ w ∧
      w.length = 10 * bs.length ∧
      ∀ rest, uart_rx (w ++ rest) = bs.map (fun b => b % 256) ++ uart_rx rest := by
  induction bs generalizing m with
  | nil => exact ⟨[], by simp⟩
  | cons b bs ih =>
    obtain ⟨w1, hw1, hl1, hr1⟩ := tx_byte_wire b m
    obtain ⟨w2, hw2, hl2, hr2⟩ := ih (tx_byte b m)
    refine ⟨w1 ++ w2, ?_, ?_, ?_⟩
    · simp only [List.foldl_cons]
      rw [hw2, hw1, List.append_assoc]
    · simp [hl1, hl2]; omega
    · intro rest
      rw [List.append_assoc, hr1, hr2]
      simp

theorem pkt_bytes (cmd dh dl : Nat) (hc : cmd < 256) (hh : dh < 256) (hl : dl < 256) :
    (pkt cmd dh dl).map (fun b => b % 256) = pkt cmd dh dl := by
  simp [pkt, Nat.mod_eq_of_lt hc, Nat.mod_eq_of_lt hh, Nat.mod_eq_of_lt hl]

theorem sent_send_pkt (cmd dh dl : Nat) (hc : cmd < 256) (hh : dh < 256) (hl : dl < 256)
    (m : Mcu) : sent_between m (send_pkt cmd dh dl m) = pkt cmd dh dl := by
  obtain ⟨w, hw, _, hr⟩ := tx_bytes_wire (pkt cmd dh dl) m
  have h := hr []
  simp only [List.append_nil] at h
  simp only [sent_between, send_pkt, hw, List.drop_left, h, pkt_bytes cmd dh dl hc hh hl]
  simp [uart_rx]

theorem pkt_sum_lt (cmd dh dl : Nat) : pkt_sum cmd dh dl < 65536 := by
  unfold pkt_sum
  omega

/-- C1: for all bytes `cmd`, `dh`, `dl` the frame transmitted by `send_pkt` satisfies
`(0xFF + 0x06 + cmd + 0x00 + dh + dl + C) mod 65536 = 0`, where `C` is the 16-bit number read
big-endian from bytes 7 and 8 of the frame. -/
theorem send_pkt_checksum_invariant (cmd dh dl : Nat) (hc : cmd < 256) (hh : dh < 256)
    (hl : dl < 256) (m : Mcu) :
    (0xFF + 0x06 + cmd + 0x00 + dh + dl +
      (256 * (sent_between m (send_pkt cmd dh dl m)).getD 7 0 +
        (sent_between m (send_pkt cmd dh dl m)).getD 8 0)) % 65536 = 0 := by
  rw [sent_send_pkt cmd dh dl hc hh hl]
  simp only [pkt, List.getD_cons_succ, List.getD_cons_zero, pkt_sum_eq cmd dh dl hc hh hl,
    Nat.shiftRight_eq_div_pow]
  omega

theorem send_pkt_checksum_invariant_witness :
    (0xFF + 0x06 + 0x0F + 0x00 + 1 + 5 +
      (256 * (sent_between (Mcu.boot 0) (send_pkt 0x0F 1 5 (Mcu.boot 0))).getD 7 0 +
        (sent_between (Mcu.boot 0) (send_pkt 0x0F 1 5 (Mcu.boot 0))).getD 8 0)) % 65536 = 0 :=
  send_pkt_checksum_invariant 0x0F 1 5 (by decide) (by decide) (by decide) (Mcu.boot 0)

/-- C2: for all bytes `cmd`, `dh`, `dl`, `send_pkt` transmits exactly ten bytes (one hundred bit
periods appended to the line history), in the order `0x7E, 0xFF, 0x06, cmd, 0x00, dh, dl`,
checksum high, checksum low, `0xEF`; the first byte is `0x7E` and the last is `0xEF`. -/
theorem send_pkt_frame_layout (cmd dh dl : Nat) (hc : cmd < 256) (hh : dh < 256)
    (hl : dl < 256) (m : Mcu) :
    sent_between m (send_pkt cmd dh dl m) =
      [0x7E, 0xFF, 0x06, cmd, 0x00, dh, dl, pkt_sum cmd dh dl / 256, pkt_sum cmd dh dl % 256,
        0xEF] ∧
    (sent_between m (send_pkt cmd dh dl m)).length = 10 ∧
    (send_pkt cmd dh dl m).wire.length = m.wire.length + 100 ∧
    (send_pkt cmd dh dl m).wire.take m.wire.length = m.wire ∧
    (sent_between m (send_pkt cmd dh dl m)).head? = some 0x7E ∧
    (sent_between m (send_pkt cmd dh dl m)).getLast? = some 0xEF := by
  have hs := pkt_sum_lt cmd dh dl
  have hhi : (pkt_sum cmd dh dl >>> 8) % 256 = pkt_sum cmd dh dl / 256 := by
    rw [Nat.shiftRight_eq_div_pow]
    omega
  obtain ⟨w, hw, hlen, _⟩ := tx_bytes_wire (pkt cmd dh dl) m
  have hw1 : (send_pkt cmd dh dl m).wire = m.wire ++ w := hw
  rw [sent_send_pkt cmd dh dl hc hh hl, hw1]
  refine ⟨by simp [pkt, hhi], by simp [pkt], ?_, by simp, by simp [pkt], by simp [pkt]⟩
  simp [hlen, pkt]

theorem send_pkt_frame_layout_witness :
    sent_between (Mcu.boot 0) (send_pkt 0x09 0x00 0x02 (Mcu.boot 0)) =
      [0x7E, 0xFF, 0x06, 0x09, 0x00, 0x00, 0x02, pkt_sum 0x09 0x00 0x02 / 256,
        pkt_sum 0x09 0x00 0x02 % 256, 0xEF] ∧
    (sent_between (Mcu.boot 0) (send_pkt 0x09 0x00 0x02 (Mcu.boot 0))).length = 10 ∧
    (send_pkt 0x09 0x00 0x02 (Mcu.boot 0)).wire.length = (Mcu.boot 0).wire.length + 100 ∧
    (send_pkt 0x09 0x00 0x02 (Mcu.boot 0)).wire.take (Mcu.boot 0).wire.length =
      (Mcu.boot 0).wire ∧
    (sent_between (Mcu.boot 0) (send_pkt 0x09 0x00 0x02 (Mcu.boot 0))).head? = some 0x7E ∧
    (sent_between (Mcu.boot 0) (send_pkt 0x09 0x00 0x02 (Mcu.boot 0))).getLast? = some 0xEF :=
  send_pkt_frame_layout 0x09 0x00 0x02 (by decide) (by decide) (by decide) (Mcu.boot 0)

theorem pkt_play_1_5 : pkt 0x0F 0x01 0x05 =
    [0x7E, 0xFF, 0x06, 0x0F, 0x00, 0x01, 0x05, 0xFE, 0xE6, 0xEF] := by
  decide

/-- C3 (as stated, refuted): the frame for command `0x0F`, folder 1, file 5 is not the one with
checksum bytes `0xFE, 0x90`, and its 16-bit checksum is not `0xFE90`. -/
theorem play_1_5_checksum_not_FE90 :
    sent_between (Mcu.boot 0) (send_pkt 0x0F 0x01 0x05 (Mcu.boot 0)) ≠
      [0x7E, 0xFF, 0x06, 0x0F, 0x00, 0x01, 0x05, 0xFE, 0x90, 0xEF] ∧
    pkt_sum 0x0F 0x01 0x05 ≠ 0xFE90 ∧
    (65536 - (0xFF + 0x06 + 0x0F + 0x00 + 0x01 + 0x05)) % 65536 ≠ 0xFE90 := by
  rw [sent_send_pkt 0x0F 0x01 0x05 (by decide) (by decide) (by decide), pkt_play_1_5]
  decide

/-- C3 (amended): the frame for command `0x0F`, folder 1, file 5 is
`0x7E,0xFF,0x06,0x0F,0x00,0x01,0x05,0xFE,0xE6,0xEF`: its 16-bit checksum is `0xFEE6`, the value
of `0 - (0xFF+0x06+0x0F+0x00+0x01+0x05)` modulo 65536. -/
theorem play_1_5_frame (m : Mcu) :
    sent_between m (send_pkt 0x0F 0x01 0x05 m) =
      [0x7E, 0xFF, 0x06, 0x0F, 0x00, 0x01, 0x05, 0xFE, 0xE6, 0xEF] ∧
    pkt_sum 0x0F 0x01 0x05 = 0xFEE6 ∧
    (65536 - (0xFF + 0x06 + 0x0F + 0x00 + 0x01 + 0x05)) % 65536 = 0xFEE6 := by
  rw [sent_send_pkt 0x0F 0x01 0x05 (by decide) (by decide) (by decide), pkt_play_1_5]
  decide

/-- C4 (as stated, refuted): for command `0x0F`, folder 1, file 5 the transmitted checksum is
not the two's complement of the sum of `0x06, cmd, 0x00, dh, dl` alone. -/
theorem checksum_not_from_version_byte :
    256 * (sent_between (Mcu.boot 0) (send_pkt 0x0F 0x01 0x05 (Mcu.boot 0))).getD 7 0 +
        (sent_between (Mcu.boot 0) (send_pkt 0x0F 0x01 0x05 (Mcu.boot 0))).getD 8 0 ≠
      (65536 - (0x06 + 0x0F + 0x00 + 0x01 + 0x05) % 65536) % 65536 := by
  rw [sent_send_pkt 0x0F 0x01 0x05 (by decide) (by decide) (by decide), pkt_play_1_5]
  decide

/-- C4 (amended): for all bytes `cmd`, `dh`, `dl` the 16-bit checksum in the frame is the two's
complement modulo 65536 of the sum of the frame bytes at positions 1 to 6, that is of the
device byte `0xFF`, the version byte `0x06`, `cmd`, `0x00`, `dh` and `dl`; it is stored high
byte first in positions 7 and 8. -/
theorem checksum_covers_device_to_data_low (cmd dh dl : Nat) (hc : cmd < 256) (hh : dh < 256)
    (hl : dl < 256) (m : Mcu) :
    let f := sent_between m (send_pkt cmd dh dl m)
    let covered := f.getD 1 0 + f.getD 2 0 + f.getD 3 0 + f.getD 4 0 + f.getD 5 0 + f.getD 6 0
    let c := (65536 - covered % 65536) % 65536
    covered = 0xFF + 0x06 + cmd + 0x00 + dh + dl ∧
    f.getD 7 0 = c / 256 ∧ f.getD 8 0 = c % 256 ∧
    256 * f.getD 7 0 + f.getD 8 0 = c := by
  intro f covered c
  have hf : f = pkt cmd dh dl := sent_send_pkt cmd dh dl hc hh hl m
  have hcov : covered = 0xFF + 0x06 + cmd + 0x00 + dh + dl := by
    simp only [covered, hf, pkt, List.getD_cons_succ, List.getD_cons_zero]
  have hcv : c = pkt_sum cmd dh dl := by
    simp only [c, hcov, pkt_sum_eq cmd dh dl hc hh hl]
    omega
  have h7 : f.getD 7 0 = (pkt_sum cmd dh dl >>> 8) % 256 := by
    simp only [hf, pkt, List.getD_cons_succ, List.getD_cons_zero]
  have h8 : f.getD 8 0 = pkt_sum cmd dh dl % 256 := by
    simp only [hf, pkt, List.getD_cons_succ, List.getD_cons_zero]
  have hs := pkt_sum_lt cmd dh dl
  rw [Nat.shiftRight_eq_div_pow] at h7
  refine ⟨hcov, ?_, ?_, ?_⟩ <;> rw [hcv] <;> omega

theorem checksum_covers_device_to_data_low_witness :
    let f := sent_between (Mcu.boot 0) (send_pkt 0x06 0x00 0x1C (Mcu.boot 0))
    let covered := f.getD 1 0 + f.getD 2 0 + f.getD 3 0 + f.getD 4 0 + f.getD 5 0 + f.getD 6 0
    let c := (65536 - covered % 65536) % 65536
    covered = 0xFF + 0x06 + 0x06 + 0x00 + 0x00 + 0x1C ∧
    f.getD 7 0 = c / 256 ∧ f.getD 8 0 = c % 256 ∧
    256 * f.getD 7 0 + f.getD 8 0 = c :=
  checksum_covers_device_to_data_low 0x06 0x00 0x1C (by decide) (by decide) (by decide)
    (Mcu.boot 0)

theorem rand16_wire (m : Mcu) : (rand16 m).2.wire = m.wire := by
  simp only [rand16]
  split <;> rfl

theorem rand16_seeded (m : Mcu) : (rand16 m).2.seeded = m.seeded := by
  simp only [rand16]
  split <;> rfl

theorem rand16_fst (m : Mcu) : (rand16 m).1 = (rand16 m).2.lfsr := rfl

theorem seed_rng_once_wire (t : Nat) (m : Mcu) : (seed_rng_once t m).wire = m.wire := by
  simp only [seed_rng_once]
  split <;> rfl

theorem seed_rng_once_seeded (t : Nat) (m : Mcu) (h : m.seeded ≠ 0) : seed_rng_once t m = m := by
  simp [seed_rng_once, h]

theorem sent_between_congr (m m1 x : Mcu) (h : m1.wire = m.wire) :
    sent_between m x = sent_between m1 x := by
  simp [sent_between, h]

theorem play_random_unfold (t : Nat) (m : Mcu) :
    play_random t m =
      send_pkt 0x0F
        (if (rand16 (seed_rng_once t m)).1 % 100 < WEIGHT_FOLDER1 then FOLDER1 else FOLDER2)
        (if (rand16 (seed_rng_once t m)).1 % 100 < WEIGHT_FOLDER1
          then FILE1_MIN + (rand16 (rand16 (seed_rng_once t m)).2).1 % (FILE1_MAX - FILE1_MIN + 1)
          else FILE2_MIN + (rand16 (rand16 (seed_rng_once t m)).2).1 % (FILE2_MAX - FILE2_MIN + 1))
        (rand16 (rand16 (seed_rng_once t m)).2).2 := by
  have hp : (rand16 (seed_rng_once t m)).1 % 100 % 256 = (rand16 (seed_rng_once t m)).1 % 100 := by
    omega
  have h1 : (FILE1_MIN + (rand16 (rand16 (seed_rng_once t m)).2).1 % (FILE1_MAX - FILE1_MIN + 1))
      % 256 = FILE1_MIN + (rand16 (rand16 (seed_rng_once t m)).2).1 % (FILE1_MAX - FILE1_MIN + 1) := by
    simp only [FILE1_MIN, FILE1_MAX]
    omega
  have h2 : (FILE2_MIN + (rand16 (rand16 (seed_rng_once t m)).2).1 % (FILE2_MAX - FILE2_MIN + 1))
      % 256 = FILE2_MIN + (rand16 (rand16 (seed_rng_once t m)).2).1 % (FILE2_MAX - FILE2_MIN + 1) := by
    simp only [FILE2_MIN, FILE2_MAX]
    omega
  simp only [play_random, hp, h1, h2]
  split <;> rfl

theorem play_random_sent (t : Nat) (m : Mcu) :
    sent_between m (play_random t m) =
      pkt 0x0F
        (if (rand16 (seed_rng_once t m)).1 % 100 < WEIGHT_FOLDER1 then FOLDER1 else FOLDER2)
        (if (rand16 (seed_rng_once t m)).1 % 100 < WEIGHT_FOLDER1
          then FILE1_MIN + (rand16 (rand16 (seed_rng_once t m)).2).1 % (FILE1_MAX - FILE1_MIN + 1)
          else FILE2_MIN + (rand16 (rand16 (seed_rng_once t m)).2).1 % (FILE2_MAX - FILE2_MIN + 1))
      := by
  have hw : (rand16 (rand16 (seed_rng_once t m)).2).2.wire = m.wire := by
    rw [rand16_wire, rand16_wire, seed_rng_once_wire]
  rw [play_random_unfold, sent_between_congr m _ _ hw]
  apply sent_send_pkt
  · decide
  · split <;> decide
  · split
    · simp only [FILE1_MIN, FILE1_MAX]; omega
    · simp only [FILE2_MIN, FILE2_MAX]; omega

/-- C5: whatever the register, the seed flag and the counter value at entry, the play frame sent
by `play_random` carries a folder byte that is `FOLDER1` or `FOLDER2` and a file index inside
that folder's inclusive range (1..27 for folder 1, 1..43 for folder 2). -/
theorem play_random_file_in_range (tcnt0 : Nat) (m : Mcu) :
    let f := sent_between m (play_random tcnt0 m)
    f.length = 10 ∧ f.getD 3 0 = 0x0F ∧
    ((f.getD 5 0 = FOLDER1 ∧ FILE1_MIN ≤ f.getD 6 0 ∧ f.getD 6 0 ≤ FILE1_MAX) ∨
     (f.getD 5 0 = FOLDER2 ∧ FILE2_MIN ≤ f.getD 6 0 ∧ f.getD 6 0 ≤ FILE2_MAX)) ∧
    FOLDER1 = 0x01 ∧ FILE1_MIN = 1 ∧ FILE1_MAX = 27 ∧
    FOLDER2 = 0x02 ∧ FILE2_MIN = 1 ∧ FILE2_MAX = 43 := by
  intro f
  have hf : f = _ := play_random_sent tcnt0 m
  refine ⟨by rw [hf]; rfl, by rw [hf]; rfl, ?_, rfl, rfl, rfl, rfl, rfl, rfl⟩
  rw [hf]
  simp only [pkt, List.getD_cons_succ, List.getD_cons_zero]
  split
  · left
    simp only [FILE1_MIN, FILE1_MAX, true_and]
    omega
  · right
    simp only [FILE2_MIN, FILE2_MAX, true_and]
    omega

/-- C6: in `play_random`, with `pick` the first `rand16` output modulo 100, the folder byte of the
play frame is `FOLDER1` exactly when `pick < WEIGHT_FOLDER1 = 90` and `FOLDER2` otherwise; the
comparison is strict, so `pick = 90` gives folder 2 and `pick = 89` gives folder 1, and both
values of `pick` occur (from registers 180 and 178). -/
theorem play_random_folder_iff (tcnt0 : Nat) (m : Mcu) :
    let pick := (rand16 (seed_rng_once tcnt0 m)).1 % 100
    let folder := (sent_between m (play_random tcnt0 m)).getD 5 0
    (folder = FOLDER1 ↔ pick < WEIGHT_FOLDER1) ∧
    (folder = FOLDER2 ↔ ¬ pick < WEIGHT_FOLDER1) ∧
    WEIGHT_FOLDER1 = 90 ∧
    (pick = 90 → folder = FOLDER2) ∧ (pick = 89 → folder = FOLDER1) ∧
    (rand16 (seed_rng_once 0 { Mcu.boot 0 with lfsr := 180, seeded := 1 })).1 % 100 = 90 ∧
    (sent_between (Mcu.boot 0)
      (play_random 0 { Mcu.boot 0 with lfsr := 180, seeded := 1 })).getD 5 0 = FOLDER2 ∧
    (rand16 (seed_rng_once 0 { Mcu.boot 0 with lfsr := 178, seeded := 1 })).1 % 100 = 89 ∧
    (sent_between (Mcu.boot 0)
      (play_random 0 { Mcu.boot 0 with lfsr := 178, seeded := 1 })).getD 5 0 = FOLDER1 := by
  intro pick folder
  have hf : folder = if pick < WEIGHT_FOLDER1 then FOLDER1 else FOLDER2 := by
    simp only [folder, pick, play_random_sent, pkt, List.getD_cons_succ, List.getD_cons_zero]
  have h12 : FOLDER1 ≠ FOLDER2 := by decide
  have e90 : (rand16 (seed_rng_once 0 { Mcu.boot 0 with lfsr := 180, seeded := 1 })).1 = 90 := by
    decide
  have e89 : (rand16 (seed_rng_once 0 { Mcu.boot 0 with lfsr := 178, seeded := 1 })).1 = 89 := by
    decide
  have s90 := play_random_sent 0 { Mcu.boot 0 with lfsr := 180, seeded := 1 }
  have s89 := play_random_sent 0 { Mcu.boot 0 with lfsr := 178, seeded := 1 }
  rw [e90] at s90
  rw [e89] at s89
  have w90 : sent_between (Mcu.boot 0)
      (play_random 0 { Mcu.boot 0 with lfsr := 180, seeded := 1 }) = _ := s90
  have w89 : sent_between (Mcu.boot 0)
      (play_random 0 { Mcu.boot 0 with lfsr := 178, seeded := 1 }) = _ := s89
  refine ⟨?_, ?_, rfl, ?_, ?_, by rw [e90], ?_, by rw [e89], ?_⟩
  · rw [hf]; split <;> simp_all [Ne.symm h12]
  · rw [hf]; split <;> simp_all
  · intro h; rw [hf, h]; rfl
  · intro h; rw [hf, h]; rfl
  · rw [w90]; rfl
  · rw [w89]; rfl

/-! ## The generator -/

theorem lfsr_next_eq (s : Nat) :
    lfsr_next s = if s &&& 1 ≠ 0 then (s >>> 1) ^^^ 0xB400 else s >>> 1 := by
  simp only [lfsr_next, rand16]
  split <;> rfl

theorem rand16_snd (m : Mcu) : (rand16 m).2 = { m with lfsr := lfsr_next m.lfsr } := by
  simp only [lfsr_next, rand16]
  split <;> rfl

theorem rand16_state_iterate (n : Nat) (m : Mcu) :
    (fun x => (rand16 x).2)^[n] m = { m with lfsr := lfsr_next^[n] m.lfsr } := by
  induction n generalizing m with
  | zero => rfl
  | succ n ih =>
    rw [Function.iterate_succ_apply, Function.iterate_succ_apply, ih, rand16_snd]

theorem lfsr_next_lt (s : Nat) (hs : s < 65536) : lfsr_next s < 65536 := by
  have h1 : s >>> 1 < 2 ^ 16 := by
    rw [Nat.shiftRight_eq_div_pow]
    omega
  rw [lfsr_next_eq]
  split
  · exact Nat.xor_lt_two_pow h1 (by decide)
  · exact h1

theorem lfsr_next_ne_zero (s : Nat) (h0 : s ≠ 0) (hs : s < 65536) : lfsr_next s ≠ 0 := by
  rw [lfsr_next_eq]
  split
  · intro h
    have hb : ((s >>> 1) ^^^ 0xB400).testBit 15 = true := by
      have h1 : s >>> 1 < 2 ^ 15 := by
        rw [Nat.shiftRight_eq_div_pow]
        omega
      have h2 : Nat.testBit 0xB400 15 = true := by decide
      rw [Nat.testBit_xor, Nat.testBit_lt_two_pow h1, h2]
      rfl
    rw [h] at hb
    simp at hb
  · rename_i hl
    have hl0 : s &&& 1 = 0 := by simpa using hl
    rw [Nat.and_one_is_mod] at hl0
    rw [Nat.shiftRight_eq_div_pow]
    omega

theorem lfsr_iterate_ne_zero (n s : Nat) (h0 : s ≠ 0) (hs : s < 65536) :
    lfsr_next^[n] s ≠ 0 ∧ lfsr_next^[n] s < 65536 := by
  induction n generalizing s with
  | zero => exact ⟨h0, hs⟩
  | succ n ih =>
    rw [Function.iterate_succ_apply]
    exact ih (lfsr_next s) (lfsr_next_ne_zero s h0 hs) (lfsr_next_lt s hs)

/-- C7: from an already-seeded state with register `s`, writing `s1`, `s2` for the register after
one and two `rand16` updates, `play_random` transmits exactly one frame (ten bytes, one hundred
bit periods), the frame of command `0x0F` with data_high the folder chosen from `s1` and
data_low `MIN + s2 mod (MAX - MIN + 1)` for that folder's bounds; on both branches exactly two
draws are consumed, the register is left equal to `s2` and the seed flag is untouched. -/
theorem play_random_one_frame (tcnt0 : Nat) (m : Mcu) (hseed : m.seeded ≠ 0) :
    let s1 := lfsr_next m.lfsr
    let s2 := lfsr_next s1
    let folder := if s1 % 100 < WEIGHT_FOLDER1 then FOLDER1 else FOLDER2
    let file := if s1 % 100 < WEIGHT_FOLDER1
      then FILE1_MIN + s2 % (FILE1_MAX - FILE1_MIN + 1)
      else FILE2_MIN + s2 % (FILE2_MAX - FILE2_MIN + 1)
    (rand16 m).1 = s1 ∧ (rand16 (rand16 m).2).1 = s2 ∧
    play_random tcnt0 m = send_pkt 0x0F folder file { m with lfsr := s2 } ∧
    sent_between m (play_random tcnt0 m) = pkt 0x0F folder file ∧
    (sent_between m (play_random tcnt0 m)).length = 10 ∧
    (play_random tcnt0 m).wire.length = m.wire.length + 100 ∧
    (play_random tcnt0 m).wire.take m.wire.length = m.wire ∧
    (play_random tcnt0 m).lfsr = s2 ∧
    (play_random tcnt0 m).seeded = m.seeded := by
  intro s1 s2 folder file
  have hm : seed_rng_once tcnt0 m = m := seed_rng_once_seeded tcnt0 m hseed
  have e1 : (rand16 m).1 = s1 := by rw [rand16_fst, rand16_snd]
  have e2 : (rand16 (rand16 m).2).1 = s2 := by rw [rand16_fst, rand16_snd, rand16_snd]
  have e3 : (rand16 (rand16 m).2).2 = { m with lfsr := s2 } := by
    rw [rand16_snd, rand16_snd]
  have hplay : play_random tcnt0 m = send_pkt 0x0F folder file { m with lfsr := s2 } := by
    rw [play_random_unfold, hm, e1, e2, e3]
  have hsent : sent_between m (play_random tcnt0 m) = pkt 0x0F folder file := by
    rw [play_random_sent, hm, e1, e2]
  obtain ⟨w, hw, hlen, _⟩ := tx_bytes_wire (pkt 0x0F folder file) { m with lfsr := s2 }
  have hw1 : (play_random tcnt0 m).wire = m.wire ++ w := by
    rw [hplay]
    exact hw
  obtain ⟨f1, f2, _⟩ := tx_bytes_fields (pkt 0x0F folder file) { m with lfsr := s2 }
  refine ⟨e1, e2, hplay, hsent, by rw [hsent]; rfl, ?_, ?_, ?_, ?_⟩
  · rw [hw1, List.length_append, hlen]
    rfl
  · rw [hw1]
    simp
  · rw [hplay]
    exact f1
  · rw [hplay]
    exact f2

theorem play_random_one_frame_witness :
    let m : Mcu := { Mcu.boot 0x1A with seeded := 1 }
    let s1 := lfsr_next m.lfsr
    let s2 := lfsr_next s1
    let folder := if s1 % 100 < WEIGHT_FOLDER1 then FOLDER1 else FOLDER2
    let file := if s1 % 100 < WEIGHT_FOLDER1
      then FILE1_MIN + s2 % (FILE1_MAX - FILE1_MIN + 1)
      else FILE2_MIN + s2 % (FILE2_MAX - FILE2_MIN + 1)
    m.seeded ≠ 0 ∧
    (rand16 m).1 = s1 ∧ (rand16 (rand16 m).2).1 = s2 ∧
    play_random 0 m = send_pkt 0x0F folder file { m with lfsr := s2 } ∧
    sent_between m (play_random 0 m) = pkt 0x0F folder file ∧
    (sent_between m (play_random 0 m)).length = 10 ∧
    (play_random 0 m).wire.length = m.wire.length + 100 ∧
    (play_random 0 m).wire.take m.wire.length = m.wire ∧
    (play_random 0 m).lfsr = s2 ∧
    (play_random 0 m).seeded = m.seeded :=
  ⟨by decide, play_random_one_frame 0 { Mcu.boot 0x1A with seeded := 1 } (by decide)⟩

/-- C9: for every non-zero 16-bit register value, the register after one `rand16` call, which is
`s >> 1` XORed with `0xB400` when the low bit of `s` was 1 and is also the value returned, is
non-zero (and still 16 bits wide); hence the register is non-zero after any number of calls. -/
theorem rand16_never_zero (m : Mcu) (h0 : m.lfsr ≠ 0) (hs : m.lfsr < 65536) :
    (rand16 m).2.lfsr = (if m.lfsr % 2 = 1 then (m.lfsr >>> 1) ^^^ 0xB400 else m.lfsr >>> 1) ∧
    (rand16 m).1 = (rand16 m).2.lfsr ∧
    (rand16 m).2.lfsr ≠ 0 ∧ (rand16 m).2.lfsr < 65536 ∧
    ∀ n, ((fun x => (rand16 x).2)^[n] m).lfsr ≠ 0 ∧
      ((fun x => (rand16 x).2)^[n] m).lfsr < 65536 := by
  have hl : (rand16 m).2.lfsr = lfsr_next m.lfsr := by rw [rand16_snd]
  refine ⟨?_, rfl, ?_, ?_, ?_⟩
  · rw [hl, lfsr_next_eq, Nat.and_one_is_mod]
    rcases Nat.mod_two_eq_zero_or_one m.lfsr with h | h <;> simp [h]
  · rw [hl]
    exact lfsr_next_ne_zero _ h0 hs
  · rw [hl]
    exact lfsr_next_lt _ hs
  · intro n
    rw [rand16_state_iterate]
    exact lfsr_iterate_ne_zero n m.lfsr h0 hs

theorem rand16_never_zero_witness :
    (Mcu.boot 0).lfsr ≠ 0 ∧ (Mcu.boot 0).lfsr < 65536 ∧
    (rand16 (Mcu.boot 0)).2.lfsr =
      (if (Mcu.boot 0).lfsr % 2 = 1 then ((Mcu.boot 0).lfsr >>> 1) ^^^ 0xB400
        else (Mcu.boot 0).lfsr >>> 1) ∧
    (rand16 (Mcu.boot 0)).1 = (rand16 (Mcu.boot 0)).2.lfsr ∧
    (rand16 (Mcu.boot 0)).2.lfsr ≠ 0 ∧ (rand16 (Mcu.boot 0)).2.lfsr < 65536 ∧
    ∀ n, ((fun x => (rand16 x).2)^[n] (Mcu.boot 0)).lfsr ≠ 0 ∧
      ((fun x => (rand16 x).2)^[n] (Mcu.boot 0)).lfsr < 65536 :=
  ⟨by decide, by decide, rand16_never_zero (Mcu.boot 0) (by decide) (by decide)⟩

/-! ## Period of the generator -/

theorem lfsr_iterate_zero (n : Nat) : lfsr_next^[n] 0 = 0 := by
  induction n with
  | zero => rfl
  | succ n ih =>
    rw [Function.iterate_succ_apply]
    exact ih

theorem lfsr_run_eq_iterate (n s : Nat) : lfsr_run n s = lfsr_next^[n] s := by
  induction n generalizing s with
  | zero => rfl
  | succ n ih =>
    rw [Function.iterate_succ_apply]
    simp only [lfsr_run]
    cases h : lfsr_next s with
    | zero => exact (lfsr_iterate_zero n).symm
    | succ t => exact ih (t + 1)

theorem lfsr_run_full : lfsr_run 65535 1 = 1 := by decide!

theorem lfsr_run_third : lfsr_run 21845 1 ≠ 1 := by decide!

theorem lfsr_run_fifth : lfsr_run 13107 1 ≠ 1 := by decide!

theorem lfsr_run_seventeenth : lfsr_run 3855 1 ≠ 1 := by decide!

theorem lfsr_run_257th : lfsr_run 255 1 ≠ 1 := by decide!

theorem prime_dvd_65535 (p : Nat) (hp : p.Prime) (hd : p ∣ 65535) :
    p = 3 ∨ p = 5 ∨ p = 17 ∨ p = 257 := by
  have h : (65535 : Nat) = 3 * (5 * (17 * 257)) := by norm_num
  rw [h] at hd
  have p3 : Nat.Prime 3 := by norm_num
  have p5 : Nat.Prime 5 := by norm_num
  have p17 : Nat.Prime 17 := by norm_num
  have p257 : Nat.Prime 257 := by norm_num
  rcases (Nat.Prime.dvd_mul hp).1 hd with h3 | hd
  · exact Or.inl ((Nat.prime_dvd_prime_iff_eq hp p3).1 h3)
  rcases (Nat.Prime.dvd_mul hp).1 hd with h5 | hd
  · exact Or.inr (Or.inl ((Nat.prime_dvd_prime_iff_eq hp p5).1 h5))
  rcases (Nat.Prime.dvd_mul hp).1 hd with h17 | h257
  · exact Or.inr (Or.inr (Or.inl ((Nat.prime_dvd_prime_iff_eq hp p17).1 h17)))
  · exact Or.inr (Or.inr (Or.inr ((Nat.prime_dvd_prime_iff_eq hp p257).1 h257)))

theorem minimalPeriod_eq_of_cofactors {α : Type} (f : α → α) (x : α) (n : Nat)
    (hfull : Function.IsPeriodicPt f n x)
    (hprime : ∀ p, p.Prime → p ∣ n → ¬ Function.IsPeriodicPt f (n / p) x) :
    Function.minimalPeriod f x = n := by
  obtain ⟨q, hq⟩ := hfull.minimalPeriod_dvd
  by_contra hne
  have hq1 : q ≠ 1 := by
    intro h1
    rw [h1, mul_one] at hq
    exact hne hq.symm
  obtain ⟨p, hp, r, hr⟩ := Nat.exists_prime_and_dvd hq1
  have hn : n = p * (Function.minimalPeriod f x * r) := by
    rw [hq, hr, Nat.mul_left_comm]
  have hdiv : n / p = Function.minimalPeriod f x * r := by
    rw [hn]
    exact Nat.mul_div_cancel_left _ hp.pos
  apply hprime p hp ⟨_, hn⟩
  rw [hdiv]
  exact (Function.isPeriodicPt_minimalPeriod f x).trans_dvd ⟨r, rfl⟩

theorem lfsr_period_one : Function.minimalPeriod lfsr_next 1 = 65535 := by
  have hfull : Function.IsPeriodicPt lfsr_next 65535 1 :=
    (lfsr_run_eq_iterate 65535 1).symm.trans lfsr_run_full
  have e3 : 65535 / 3 = 21845 := by norm_num
  have e5 : 65535 / 5 = 13107 := by norm_num
  have e17 : 65535 / 17 = 3855 := by norm_num
  have e257 : 65535 / 257 = 255 := by norm_num
  apply minimalPeriod_eq_of_cofactors lfsr_next 1 65535 hfull
  intro p hp hd hper
  rcases prime_dvd_65535 p hp hd with h | h | h | h
  · rw [h, e3] at hper
    exact lfsr_run_third ((lfsr_run_eq_iterate _ _).trans hper)
  · rw [h, e5] at hper
    exact lfsr_run_fifth ((lfsr_run_eq_iterate _ _).trans hper)
  · rw [h, e17] at hper
    exact lfsr_run_seventeenth ((lfsr_run_eq_iterate _ _).trans hper)
  · rw [h, e257] at hper
    exact lfsr_run_257th ((lfsr_run_eq_iterate _ _).trans hper)

theorem lfsr_orbit_covers (s : Nat) (h0 : s ≠ 0) (hs : s < 65536)
    (hmin : Function.minimalPeriod lfsr_next s = 65535) (v : Nat) (hv0 : v ≠ 0)
    (hv : v < 65536) : ∃ k, k < 65535 ∧ lfsr_next^[k] s = v := by
  have hinj : Set.InjOn (fun k => lfsr_next^[k] s) (Finset.range 65535 : Finset Nat) := by
    intro a ha b hb hab
    have ha1 : a ∈ Set.Iio (Function.minimalPeriod lfsr_next s) := by
      rw [hmin]
      simpa using ha
    have hb1 : b ∈ Set.Iio (Function.minimalPeriod lfsr_next s) := by
      rw [hmin]
      simpa using hb
    exact Function.iterate_injOn_Iio_minimalPeriod ha1 hb1 hab
  have hcard : ((Finset.range 65535).image (fun k => lfsr_next^[k] s)).card = 65535 := by
    rw [Finset.card_image_of_injOn hinj, Finset.card_range]
  have hsub : (Finset.range 65535).image (fun k => lfsr_next^[k] s) ⊆ Finset.Icc 1 65535 := by
    intro x hx
    obtain ⟨k, _, rfl⟩ := Finset.mem_image.1 hx
    have := lfsr_iterate_ne_zero k s h0 hs
    rw [Finset.mem_Icc]
    omega
  have heq := Finset.eq_of_subset_of_card_le hsub (by rw [hcard, Nat.card_Icc])
  have hmem : v ∈ (Finset.range 65535).image (fun k => lfsr_next^[k] s) := by
    rw [heq, Finset.mem_Icc]
    omega
  obtain ⟨k, hk, hkv⟩ := Finset.mem_image.1 hmem
  exact ⟨k, by simpa using hk, hkv⟩

theorem lfsr_period (s : Nat) (h0 : s ≠ 0) (hs : s < 65536) :
    Function.minimalPeriod lfsr_next s = 65535 := by
  obtain ⟨k, _, hk⟩ :=
    lfsr_orbit_covers 1 (by decide) (by decide) lfsr_period_one s h0 hs
  have h1 : (1 : Nat) ∈ Function.periodicPts lfsr_next := by
    rw [← Function.minimalPeriod_pos_iff_mem_periodicPts, lfsr_period_one]
    decide
  rw [← hk, Function.minimalPeriod_apply_iterate h1, lfsr_period_one]

theorem lfsr_outputs_eq_map (n s : Nat) :
    lfsr_outputs n s = (List.range n).map (fun k => lfsr_next^[k] (lfsr_next s)) := by
  induction n generalizing s with
  | zero => rfl
  | succ n ih =>
    rw [List.range_succ_eq_map, List.map_cons, List.map_map, lfsr_outputs, ih]
    congr 1

theorem lfsr_outputs_perm (s : Nat) (h0 : s ≠ 0) (hs : s < 65536) :
    (lfsr_outputs 65535 s).Perm (List.range' 1 65535) := by
  have h0n := lfsr_next_ne_zero s h0 hs
  have hsn := lfsr_next_lt s hs
  have hper := lfsr_period (lfsr_next s) h0n hsn
  have hnd : (lfsr_outputs 65535 s).Nodup := by
    rw [lfsr_outputs_eq_map]
    refine List.Nodup.map_on ?_ (List.nodup_range 65535)
    intro a ha b hb hab
    have ha1 : a ∈ Set.Iio (Function.minimalPeriod lfsr_next (lfsr_next s)) := by
      rw [hper]
      simpa using ha
    have hb1 : b ∈ Set.Iio (Function.minimalPeriod lfsr_next (lfsr_next s)) := by
      rw [hper]
      simpa using hb
    exact Function.iterate_injOn_Iio_minimalPeriod ha1 hb1 hab
  refine (List.perm_ext_iff_of_nodup hnd (List.nodup_range' 1 65535)).2 ?_
  intro v
  rw [lfsr_outputs_eq_map, List.mem_map, List.mem_range'_1]
  constructor
  · rintro ⟨k, _, rfl⟩
    have := lfsr_iterate_ne_zero k (lfsr_next s) h0n hsn
    omega
  · intro hv
    obtain ⟨k, hk, hkv⟩ :=
      lfsr_orbit_covers (lfsr_next s) h0n hsn hper v (by omega) (by omega)
    exact ⟨k, List.mem_range.2 hk, hkv⟩

/-- C10: `rand16` runs through a maximal-length sequence.  From every non-zero 16-bit register
value, 65535 calls bring the state back and no smaller positive number of calls returns the
register to its start; every non-zero 16-bit value is the register after exactly one number
`k < 65535` of calls, and the 65535 values returned in one period are a rearrangement of
`1, ..., 65535`.  From register 0 the register stays 0. -/
theorem rand16_maximal_length (m : Mcu) (h0 : m.lfsr ≠ 0) (hs : m.lfsr < 65536) :
    (fun x => (rand16 x).2)^[65535] m = m ∧
    (∀ n, 0 < n → n < 65535 → ((fun x => (rand16 x).2)^[n] m).lfsr ≠ m.lfsr) ∧
    (∀ v, v ≠ 0 → v < 65536 →
      ∃! k, k < 65535 ∧ ((fun x => (rand16 x).2)^[k] m).lfsr = v) ∧
    (lfsr_outputs 65535 m.lfsr).Perm (List.range' 1 65535) ∧
    (∀ n, ((fun x => (rand16 x).2)^[n] { m with lfsr := 0 }).lfsr = 0) := by
  have hper := lfsr_period m.lfsr h0 hs
  refine ⟨?_, ?_, ?_, lfsr_outputs_perm m.lfsr h0 hs, ?_⟩
  · rw [rand16_state_iterate]
    have h := Function.iterate_minimalPeriod (f := lfsr_next) (x := m.lfsr)
    rw [hper] at h
    rw [h]
  · intro n hn hlt heq
    rw [rand16_state_iterate] at heq
    have hle := Function.IsPeriodicPt.minimalPeriod_le hn heq
    omega
  · intro v hv0 hv
    obtain ⟨k, hk, hkv⟩ := lfsr_orbit_covers m.lfsr h0 hs hper v hv0 hv
    refine ⟨k, ⟨hk, by rw [rand16_state_iterate]; exact hkv⟩, ?_⟩
    rintro j ⟨hj, hjv⟩
    rw [rand16_state_iterate] at hjv
    have hj1 : j ∈ Set.Iio (Function.minimalPeriod lfsr_next m.lfsr) := by
      rw [hper]
      exact hj
    have hk1 : k ∈ Set.Iio (Function.minimalPeriod lfsr_next m.lfsr) := by
      rw [hper]
      exact hk
    exact Function.iterate_injOn_Iio_minimalPeriod hj1 hk1 (hjv.trans hkv.symm)
  · intro n
    rw [rand16_state_iterate]
    exact lfsr_iterate_zero n

theorem rand16_maximal_length_witness :
    (Mcu.boot 0).lfsr ≠ 0 ∧ (Mcu.boot 0).lfsr < 65536 ∧
    (fun x => (rand16 x).2)^[65535] (Mcu.boot 0) = Mcu.boot 0 ∧
    (∀ n, 0 < n → n < 65535 →
      ((fun x => (rand16 x).2)^[n] (Mcu.boot 0)).lfsr ≠ (Mcu.boot 0).lfsr) ∧
    (∀ v, v ≠ 0 → v < 65536 →
      ∃! k, k < 65535 ∧ ((fun x => (rand16 x).2)^[k] (Mcu.boot 0)).lfsr = v) ∧
    (lfsr_outputs 65535 (Mcu.boot 0).lfsr).Perm (List.range' 1 65535) ∧
    (∀ n, ((fun x => (rand16 x).2)^[n] { Mcu.boot 0 with lfsr := 0 }).lfsr = 0) :=
  ⟨by decide, by decide, rand16_maximal_length (Mcu.boot 0) (by decide) (by decide)⟩

/-! ## Weight of folder 1 -/

theorem picks_folder1_shift (q k : Nat) : picks_folder1 (100 * q + k) = picks_folder1 k := by
  simp only [picks_folder1]
  congr 2
  omega

theorem count_folder1_hundred :
    Nat.count (fun v => picks_folder1 v = true) 100 = 90 := by
  decide

theorem count_folder1_mul (q : Nat) :
    Nat.count (fun v => picks_folder1 v = true) (100 * q) = 90 * q := by
  induction q with
  | zero => rfl
  | succ q ih =>
    rw [Nat.mul_succ, Nat.count_add, ih]
    simp only [picks_folder1_shift]
    rw [count_folder1_hundred, Nat.mul_succ]

theorem count_folder1_low (r : Nat) (hr : r ≤ 90) :
    Nat.count (fun v => picks_folder1 v = true) r = r := by
  rw [Nat.count_iff_forall]
  intro k hk
  have h1 : k % 100 % 256 = k := by omega
  simp only [picks_folder1, h1, WEIGHT_FOLDER1, decide_eq_true_eq]
  omega

theorem count_folder1_range (q r : Nat) (hr : r ≤ 90) :
    ((List.range (100 * q + r)).filter picks_folder1).length = 90 * q + r := by
  have hfun : (fun v => decide (picks_folder1 v = true)) = picks_folder1 := by
    funext v
    simp
  have h : Nat.count (fun v => picks_folder1 v = true) (100 * q + r) = 90 * q + r := by
    rw [Nat.count_add, count_folder1_mul]
    simp only [picks_folder1_shift]
    rw [count_folder1_low r hr]
  unfold Nat.count at h
  rw [hfun] at h
  rw [← List.countP_eq_length_filter]
  exact h

theorem count_folder1_all :
    ((List.range 65536).filter picks_folder1).length = 58986 := by
  have e : (65536 : Nat) = 100 * 655 + 36 := by norm_num
  rw [e, count_folder1_range 655 36 (by decide)]

theorem count_folder1_nonzero :
    ((List.range' 1 65535).filter picks_folder1).length = 58985 := by
  have e : (65535 : Nat) = 100 * 655 + 35 := by norm_num
  have hr : ∀ n, List.range (n + 1) = 0 :: List.range' 1 n := by
    intro n
    rw [List.range_eq_range', List.range'_succ]
  have h0 : picks_folder1 0 = true := by decide
  have h := count_folder1_range 655 36 (by decide)
  rw [hr (100 * 655 + 35), List.filter_cons_of_pos h0, List.length_cons] at h
  rw [e]
  omega

theorem folder1_draws_period (s : Nat) (h0 : s ≠ 0) (hs : s < 65536) :
    folder1_draws 65535 s = 58985 := by
  unfold folder1_draws
  rw [((lfsr_outputs_perm s h0 hs).filter picks_folder1).length_eq, count_folder1_nonzero]

/-- C8 (as stated, refuted): over one full period from the initial register `0xACE1` the number
of outputs choosing folder 1 is not 90% of 65535, and over all 65536 16-bit values it is not
90% of 65536 either. -/
theorem folder1_share_not_exact :
    100 * folder1_draws 65535 0xACE1 ≠ 90 * 65535 ∧
    100 * ((List.range 65536).filter picks_folder1).length ≠ 90 * 65536 := by
  rw [folder1_draws_period 0xACE1 (by decide) (by decide), count_folder1_all]
  decide

/-- C8 (amended): an output `v` of `rand16` selects folder 1 exactly when `v mod 100 < 90`; over
one full period from any non-zero 16-bit register (65535 outputs, every non-zero value once)
exactly 58985 outputs do so, that is `100 * count = 90 * 65535 + 350`, a share of 58985/65535
which is slightly above 90%; over all 65536 16-bit values the count is 58986. -/
theorem folder1_share_of_period (s : Nat) (h0 : s ≠ 0) (hs : s < 65536) :
    folder1_draws 65535 s = 58985 ∧
    100 * folder1_draws 65535 s = 90 * 65535 + 350 ∧
    ((List.range 65536).filter picks_folder1).length = 58986 ∧
    (∀ v, picks_folder1 v = true ↔ v % 100 < 90) ∧
    (∀ t m, (sent_between m (play_random t m)).getD 5 0 = FOLDER1 ↔
      picks_folder1 (rand16 (seed_rng_once t m)).1 = true) := by
  have hp : ∀ v, picks_folder1 v = true ↔ v % 100 < 90 := by
    intro v
    have h1 : v % 100 % 256 = v % 100 := by omega
    simp only [picks_folder1, h1, WEIGHT_FOLDER1, decide_eq_true_eq]
  refine ⟨folder1_draws_period s h0 hs, ?_, count_folder1_all, hp, ?_⟩
  · rw [folder1_draws_period s h0 hs]
  · intro t m
    rw [hp, play_random_sent]
    simp only [pkt, List.getD_cons_succ, List.getD_cons_zero, WEIGHT_FOLDER1]
    have h12 : FOLDER2 ≠ FOLDER1 := by decide
    split <;> simp_all

theorem folder1_share_of_period_witness :
    (0xACE1 : Nat) ≠ 0 ∧ (0xACE1 : Nat) < 65536 ∧
    folder1_draws 65535 0xACE1 = 58985 ∧
    100 * folder1_draws 65535 0xACE1 = 90 * 65535 + 350 ∧
    ((List.range 65536).filter picks_folder1).length = 58986 ∧
    (∀ v, picks_folder1 v = true ↔ v % 100 < 90) ∧
    (∀ t m, (sent_between m (play_random t m)).getD 5 0 = FOLDER1 ↔
      picks_folder1 (rand16 (seed_rng_once t m)).1 = true) :=
  ⟨by decide, by decide, folder1_share_of_period 0xACE1 (by decide) (by decide)⟩

/-! ## Port bits -/

theorem testBit_255 (i : Nat) (hi : i < 8) : Nat.testBit 255 i = true := by
  interval_cases i <;> rfl

theorem port_set_other (k i : Nat) (h : i ≠ k) (m : Mcu) :
    (port_set k m).portb.testBit i = m.portb.testBit i := by
  simp only [port_set, Nat.testBit_or, Nat.one_shiftLeft, Nat.testBit_two_pow]
  simp [Ne.symm h]

theorem port_set_self (k : Nat) (m : Mcu) : (port_set k m).portb.testBit k = true := by
  simp only [port_set, Nat.testBit_or, Nat.one_shiftLeft, Nat.testBit_two_pow]
  simp

theorem port_clr_other (k i : Nat) (hi : i < 8) (h : i ≠ k) (m : Mcu) :
    (port_clr k m).portb.testBit i = m.portb.testBit i := by
  simp only [port_clr, Nat.testBit_and, Nat.testBit_xor, Nat.one_shiftLeft, Nat.testBit_two_pow,
    testBit_255 i hi]
  simp [Ne.symm h]

theorem port_clr_self (k : Nat) (hk : k < 8) (m : Mcu) :
    (port_clr k m).portb.testBit k = false := by
  simp only [port_clr, Nat.testBit_and, Nat.testBit_xor, Nat.one_shiftLeft, Nat.testBit_two_pow,
    testBit_255 k hk]
  simp

theorem line_level_testBit (p : Nat) : line_level p = (p.testBit TX_BIT).toNat :=
  line_level_eq p

theorem tx_data_bits_spec (n b : Nat) (m : Mcu) :
    ∃ w : List Nat, (tx_data_bits n b m).wire = m.wire ++ w ∧
      w.map line_level = (List.range n).map (fun j => b / 2 ^ j % 2) ∧
      (∀ x ∈ w, ∀ i, i < 8 → i ≠ TX_BIT → x.testBit i = m.portb.testBit i) ∧
      (∀ i, i < 8 → i ≠ TX_BIT → (tx_data_bits n b m).portb.testBit i = m.portb.testBit i) := by
  induction n generalizing b m with
  | zero => exact ⟨[], by simp [tx_data_bits], by simp, by simp, by simp [tx_data_bits]⟩
  | succ n ih =>
    obtain ⟨w, hw, hlv, hbits, hport⟩ := ih (b >>> 1)
      (delay_bit (if b &&& 1 ≠ 0 then port_set TX_BIT m else port_clr TX_BIT m))
    have hp : ∀ i, i < 8 → i ≠ TX_BIT →
        (delay_bit (if b &&& 1 ≠ 0 then port_set TX_BIT m else port_clr TX_BIT m)).portb.testBit i
          = m.portb.testBit i := by
      intro i hi hne
      show (if b &&& 1 ≠ 0 then port_set TX_BIT m else port_clr TX_BIT m).portb.testBit i = _
      split
      · exact port_set_other TX_BIT i hne m
      · exact port_clr_other TX_BIT i hi hne m
    have hlevel : line_level
        (if b &&& 1 ≠ 0 then port_set TX_BIT m else port_clr TX_BIT m).portb = b % 2 := by
      rw [Nat.and_one_is_mod]
      rcases Nat.mod_two_eq_zero_or_one b with h0 | h1
      · simp [h0, port_clr, line_level_clr]
      · simp [h1, port_set, line_level_set]
    refine ⟨(if b &&& 1 ≠ 0 then port_set TX_BIT m else port_clr TX_BIT m).portb :: w,
      ?_, ?_, ?_, ?_⟩
    · have h1 : tx_data_bits (n + 1) b m = tx_data_bits n (b >>> 1)
          (delay_bit (if b &&& 1 ≠ 0 then port_set TX_BIT m else port_clr TX_BIT m)) := rfl
      have h2 : (delay_bit (if b &&& 1 ≠ 0 then port_set TX_BIT m else port_clr TX_BIT m)).wire
          = m.wire ++ [(if b &&& 1 ≠ 0 then port_set TX_BIT m else port_clr TX_BIT m).portb] := by
        show (if b &&& 1 ≠ 0 then port_set TX_BIT m else port_clr TX_BIT m).wire ++ _ = _
        split <;> rfl
      rw [h1, hw, h2]
      simp
    · rw [List.map_cons, hlv, hlevel, List.range_succ_eq_map, List.map_cons, List.map_map]
      congr 1
      · simp
      · apply List.map_congr_left
        intro j _
        simp only [Function.comp, Nat.shiftRight_eq_div_pow, Nat.succ_eq_add_one, pow_succ]
        rw [Nat.div_div_eq_div_mul, Nat.mul_comm]
        simp
    · intro x hx i hi hne
      rcases List.mem_cons.1 hx with rfl | hx
      · exact hp i hi hne
      · rw [hbits x hx i hi hne, hp i hi hne]
    · intro i hi hne
      have h1 : tx_data_bits (n + 1) b m = tx_data_bits n (b >>> 1)
          (delay_bit (if b &&& 1 ≠ 0 then port_set TX_BIT m else port_clr TX_BIT m)) := rfl
      rw [h1, hport i hi hne, hp i hi hne]

theorem tx_byte_spec (b : Nat) (m : Mcu) :
    ∃ w : List Nat, (tx_byte b m).wire = m.wire ++ w ∧
      w.map line_level = 0 :: (List.range 8).map (fun j => b % 256 / 2 ^ j % 2) ++ [1] ∧
      (∀ x ∈ w, ∀ i, i < 8 → i ≠ TX_BIT → x.testBit i = m.portb.testBit i) ∧
      (∀ i, i < 8 → i ≠ TX_BIT → (tx_byte b m).portb.testBit i = m.portb.testBit i) ∧
      line_level (tx_byte b m).portb = 1 := by
  obtain ⟨w, hw, hlv, hbits, hport⟩ :=
    tx_data_bits_spec 8 (b % 256) (delay_bit (port_clr TX_BIT m))
  have e1 : tx_byte b m = delay_bit (port_set TX_BIT
      (tx_data_bits 8 (b % 256) (delay_bit (port_clr TX_BIT m)))) := rfl
  have e2 : (delay_bit (port_clr TX_BIT m)).wire = m.wire ++ [(port_clr TX_BIT m).portb] := rfl
  have e3 : (delay_bit (port_clr TX_BIT m)).portb = (port_clr TX_BIT m).portb := rfl
  have hfin : ∀ i, i < 8 → i ≠ TX_BIT → (tx_byte b m).portb.testBit i = m.portb.testBit i := by
    intro i hi hne
    rw [e1]
    show (port_set TX_BIT _).portb.testBit i = _
    rw [port_set_other TX_BIT i hne, hport i hi hne, e3, port_clr_other TX_BIT i hi hne]
  refine ⟨(port_clr TX_BIT m).portb :: w ++ [(tx_byte b m).portb], ?_, ?_, ?_, hfin, ?_⟩
  · have h1 : (tx_byte b m).wire =
        (tx_data_bits 8 (b % 256) (delay_bit (port_clr TX_BIT m))).wire ++
          [(tx_byte b m).portb] := rfl
    rw [h1, hw, e2]
    simp
  · have hl0 : line_level (port_clr TX_BIT m).portb = 0 := line_level_clr m.portb
    have hl1 : line_level (tx_byte b m).portb = 1 := line_level_set _
    rw [List.cons_append, List.map_cons, List.map_append, hlv, hl0, List.map_cons, hl1]
    rfl
  · intro x hx i hi hne
    rcases List.mem_append.1 hx with hx | hx
    · rcases List.mem_cons.1 hx with rfl | hx
      · exact port_clr_other TX_BIT i hi hne m
      · rw [hbits x hx i hi hne, e3, port_clr_other TX_BIT i hi hne]
    · rw [List.mem_singleton.1 hx]
      exact hfin i hi hne
  · exact line_level_set _

theorem tx_bytes_spec (bs : List Nat) (m : Mcu) :
    ∃ w : List Nat, (bs.foldl (fun m b => tx_byte b m) m).wire = m.wire ++ w ∧
      (∀ x ∈ w, ∀ i, i < 8 → i ≠ TX_BIT → x.testBit i = m.portb.testBit i) ∧
      (∀ i, i < 8 → i ≠ TX_BIT →
        (bs.foldl (fun m b => tx_byte b m) m).portb.testBit i = m.portb.testBit i) := by
  induction bs generalizing m with
  | nil => exact ⟨[], by simp, by simp, by simp⟩
  | cons b bs ih =>
    obtain ⟨w1, hw1, _, hb1, hp1, _⟩ := tx_byte_spec b m
    obtain ⟨w2, hw2, hb2, hp2⟩ := ih (tx_byte b m)
    refine ⟨w1 ++ w2, ?_, ?_, ?_⟩
    · rw [List.foldl_cons, hw2, hw1, List.append_assoc]
    · intro x hx i hi hne
      rcases List.mem_append.1 hx with hx | hx
      · exact hb1 x hx i hi hne
      · rw [hb2 x hx i hi hne, hp1 i hi hne]
    · intro i hi hne
      rw [List.foldl_cons, hp2 i hi hne, hp1 i hi hne]

/-- C13: for every byte `b`, `tx_byte` holds the TX line (bit 4 of PORTB) at exactly ten
successive levels, one per bit period: low, then bits 0 to 7 of `b` least significant first,
then high; it returns with the line high, and `b` is the sum of the data levels `d_i * 2^i`. -/
theorem tx_byte_levels (b : Nat) (hb : b < 256) (m : Mcu) :
    ((tx_byte b m).wire.drop m.wire.length).map line_level =
      [0, b % 2, b / 2 % 2, b / 4 % 2, b / 8 % 2, b / 16 % 2, b / 32 % 2, b / 64 % 2,
        b / 128 % 2, 1] ∧
    (tx_byte b m).wire.take m.wire.length = m.wire ∧
    (tx_byte b m).wire.length = m.wire.length + 10 ∧
    line_level (tx_byte b m).portb = 1 ∧
    TX_BIT = 4 ∧
    b % 2 * 2 ^ 0 + b / 2 % 2 * 2 ^ 1 + b / 4 % 2 * 2 ^ 2 + b / 8 % 2 * 2 ^ 3 +
      b / 16 % 2 * 2 ^ 4 + b / 32 % 2 * 2 ^ 5 + b / 64 % 2 * 2 ^ 6 + b / 128 % 2 * 2 ^ 7 = b ∧
    uart_rx ((tx_byte b m).wire.drop m.wire.length) = [b] := by
  obtain ⟨w, hw, hlv, _, _, hl⟩ := tx_byte_spec b m
  obtain ⟨w1, hw1, hlen1, hrx⟩ := tx_byte_wire b m
  have hww : w = w1 := List.append_cancel_left (hw.symm.trans hw1)
  have hbm : b % 256 = b := Nat.mod_eq_of_lt hb
  rw [hbm] at hlv
  refine ⟨?_, ?_, ?_, hl, rfl, by omega, ?_⟩
  · rw [hw, List.drop_left, hlv]
    simp [List.range_succ]
  · rw [hw, List.take_left]
  · rw [hw1, List.length_append, hlen1]
  · rw [hw1, List.drop_left]
    have h := hrx []
    rw [List.append_nil, hbm] at h
    rw [h]
    rfl

theorem tx_byte_levels_witness :
    (0x7E : Nat) < 256 ∧
    ((tx_byte 0x7E (Mcu.boot 0)).wire.drop (Mcu.boot 0).wire.length).map line_level =
      [0, 0x7E % 2, 0x7E / 2 % 2, 0x7E / 4 % 2, 0x7E / 8 % 2, 0x7E / 16 % 2, 0x7E / 32 % 2,
        0x7E / 64 % 2, 0x7E / 128 % 2, 1] ∧
    (tx_byte 0x7E (Mcu.boot 0)).wire.take (Mcu.boot 0).wire.length = (Mcu.boot 0).wire ∧
    (tx_byte 0x7E (Mcu.boot 0)).wire.length = (Mcu.boot 0).wire.length + 10 ∧
    line_level (tx_byte 0x7E (Mcu.boot 0)).portb = 1 ∧
    TX_BIT = 4 ∧
    0x7E % 2 * 2 ^ 0 + 0x7E / 2 % 2 * 2 ^ 1 + 0x7E / 4 % 2 * 2 ^ 2 + 0x7E / 8 % 2 * 2 ^ 3 +
      0x7E / 16 % 2 * 2 ^ 4 + 0x7E / 32 % 2 * 2 ^ 5 + 0x7E / 64 % 2 * 2 ^ 6 +
      0x7E / 128 % 2 * 2 ^ 7 = 0x7E ∧
    uart_rx ((tx_byte 0x7E (Mcu.boot 0)).wire.drop (Mcu.boot 0).wire.length) = [0x7E] :=
  ⟨by decide, tx_byte_levels 0x7E (by decide) (Mcu.boot 0)⟩

/-- C20: transmission touches only the TX line.  For every state and byte, each value `PORTB`
takes during `tx_byte` (hence during `send_pkt`) and the value on return agree with the value
at entry on every bit of the 8-bit port other than bit 4, in particular on the power-rail bit 1
and the button pull-up bit 3; `df_power_on` and `df_power_off` change only bit 1. -/
theorem tx_touches_only_tx_bit (m : Mcu) :
    (∀ b x, x ∈ (tx_byte b m).wire.drop m.wire.length →
      ∀ i, i < 8 → i ≠ TX_BIT → x.testBit i = m.portb.testBit i) ∧
    (∀ b i, i < 8 → i ≠ TX_BIT → (tx_byte b m).portb.testBit i = m.portb.testBit i) ∧
    (∀ cmd dh dl x, x ∈ (send_pkt cmd dh dl m).wire.drop m.wire.length →
      ∀ i, i < 8 → i ≠ TX_BIT → x.testBit i = m.portb.testBit i) ∧
    (∀ cmd dh dl i, i < 8 → i ≠ TX_BIT →
      (send_pkt cmd dh dl m).portb.testBit i = m.portb.testBit i) ∧
    (∀ cmd dh dl x, x ∈ (send_pkt cmd dh dl m).wire.drop m.wire.length →
      x.testBit PWR_BIT = m.portb.testBit PWR_BIT ∧
      x.testBit BTN_BIT = m.portb.testBit BTN_BIT) ∧
    (∀ i, i ≠ PWR_BIT → (df_power_on m).portb.testBit i = m.portb.testBit i) ∧
    (∀ i, i < 8 → i ≠ PWR_BIT → (df_power_off m).portb.testBit i = m.portb.testBit i) ∧
    (df_power_on m).portb.testBit PWR_BIT = true ∧
    (df_power_off m).portb.testBit PWR_BIT = false ∧
    (df_power_on m).wire = m.wire ∧ (df_power_off m).wire = m.wire ∧
    TX_BIT = 4 ∧ PWR_BIT = 1 ∧ BTN_BIT = 3 := by
  have hsend : ∀ cmd dh dl x, x ∈ (send_pkt cmd dh dl m).wire.drop m.wire.length →
      ∀ i, i < 8 → i ≠ TX_BIT → x.testBit i = m.portb.testBit i := by
    intro cmd dh dl x hx i hi hne
    obtain ⟨w, hw, hb, _⟩ := tx_bytes_spec (pkt cmd dh dl) m
    have hw1 : (send_pkt cmd dh dl m).wire = m.wire ++ w := hw
    rw [hw1, List.drop_left] at hx
    exact hb x hx i hi hne
  refine ⟨?_, ?_, hsend, ?_, ?_, ?_, ?_, port_set_self PWR_BIT m,
    port_clr_self PWR_BIT (by decide) m, rfl, rfl, rfl, rfl, rfl⟩
  · intro b x hx i hi hne
    obtain ⟨w, hw, _, hb, _⟩ := tx_byte_spec b m
    rw [hw, List.drop_left] at hx
    exact hb x hx i hi hne
  · intro b i hi hne
    obtain ⟨w, _, _, _, hp, _⟩ := tx_byte_spec b m
    exact hp i hi hne
  · intro cmd dh dl i hi hne
    obtain ⟨w, _, _, hp⟩ := tx_bytes_spec (pkt cmd dh dl) m
    exact hp i hi hne
  · intro cmd dh dl x hx
    exact ⟨hsend cmd dh dl x hx PWR_BIT (by decide) (by decide),
      hsend cmd dh dl x hx BTN_BIT (by decide) (by decide)⟩
  · intro i hne
    exact port_set_other PWR_BIT i hne m
  · intro i hi hne
    exact port_clr_other PWR_BIT i hi hne m

/-! ## Bring-up frames -/

theorem send_pkt_wire (cmd dh dl : Nat) (hc : cmd < 256) (hh : dh < 256) (hl : dl < 256)
    (m : Mcu) :
    ∃ w : List Nat, (send_pkt cmd dh dl m).wire = m.wire ++ w ∧ w.length = 100 ∧
      ∀ rest, uart_rx (w ++ rest) = pkt cmd dh dl ++ uart_rx rest := by
  obtain ⟨w, hw, hlen, hr⟩ := tx_bytes_wire (pkt cmd dh dl) m
  refine ⟨w, hw, ?_, ?_⟩
  · rw [hlen]
    rfl
  · intro rest
    rw [hr rest, pkt_bytes cmd dh dl hc hh hl]

theorem send_pkt_fields (cmd dh dl : Nat) (m : Mcu) :
    (send_pkt cmd dh dl m).lfsr = m.lfsr ∧ (send_pkt cmd dh dl m).seeded = m.seeded ∧
    (send_pkt cmd dh dl m).wake_flag = m.wake_flag :=
  tx_bytes_fields (pkt cmd dh dl) m

theorem df_init_eq (m : Mcu) :
    df_init m = send_pkt 0x06 0x00 0x1C (send_pkt 0x09 0x00 0x02 m) := rfl

theorem df_init_wire (m : Mcu) :
    ∃ w : List Nat, (df_init m).wire = m.wire ++ w ∧ w.length = 200 ∧
      ∀ rest, uart_rx (w ++ rest) =
        pkt 0x09 0x00 0x02 ++ (pkt 0x06 0x00 0x1C ++ uart_rx rest) := by
  obtain ⟨w1, hw1, hl1, hr1⟩ := send_pkt_wire 0x09 0x00 0x02 (by decide) (by decide)
    (by decide) m
  obtain ⟨w2, hw2, hl2, hr2⟩ := send_pkt_wire 0x06 0x00 0x1C (by decide) (by decide)
    (by decide) (send_pkt 0x09 0x00 0x02 m)
  refine ⟨w1 ++ w2, ?_, ?_, ?_⟩
  · rw [df_init_eq, hw2, hw1, List.append_assoc]
  · rw [List.length_append, hl1, hl2]
  · intro rest
    rw [List.append_assoc, hr1, hr2]

theorem df_init_fields (m : Mcu) :
    (df_init m).lfsr = m.lfsr ∧ (df_init m).seeded = m.seeded ∧
    (df_init m).wake_flag = m.wake_flag := by
  obtain ⟨a1, a2, a3⟩ := send_pkt_fields 0x09 0x00 0x02 m
  obtain ⟨b1, b2, b3⟩ := send_pkt_fields 0x06 0x00 0x1C (send_pkt 0x09 0x00 0x02 m)
  rw [df_init_eq]
  exact ⟨b1.trans a1, b2.trans a2, b3.trans a3⟩

theorem pkt_select_tf : pkt 0x09 0x00 0x02 =
    [0x7E, 0xFF, 0x06, 0x09, 0x00, 0x00, 0x02, 0xFE, 0xF0, 0xEF] := by
  decide

theorem pkt_volume : pkt 0x06 0x00 0x1C =
    [0x7E, 0xFF, 0x06, 0x06, 0x00, 0x00, 0x1C, 0xFE, 0xD9, 0xEF] := by
  decide

theorem df_init_sent (m : Mcu) :
    sent_between m (df_init m) = pkt 0x09 0x00 0x02 ++ pkt 0x06 0x00 0x1C := by
  obtain ⟨w, hw, _, hr⟩ := df_init_wire m
  have h := hr []
  rw [List.append_nil] at h
  simp only [sent_between, hw, List.drop_left, h]
  simp [uart_rx]

/-- C14: `df_init` transmits exactly two frames, first the media-source-select frame
`send_pkt(0x09, 0x00, 0x02)` and then the volume-set frame `send_pkt(0x06, 0x00, 0x1C)`; neither
is a play frame; the RNG register, the seed flag and the wake flag are untouched; run again on
its own result it sends the same two frames again. -/
theorem df_init_two_frames (m : Mcu) :
    df_init m = send_pkt 0x06 0x00 0x1C (send_pkt 0x09 0x00 0x02 m) ∧
    sent_between m (df_init m) = pkt 0x09 0x00 0x02 ++ pkt 0x06 0x00 0x1C ∧
    frames (sent_between m (df_init m)) =
      [[0x7E, 0xFF, 0x06, 0x09, 0x00, 0x00, 0x02, 0xFE, 0xF0, 0xEF],
       [0x7E, 0xFF, 0x06, 0x06, 0x00, 0x00, 0x1C, 0xFE, 0xD9, 0xEF]] ∧
    (df_init m).wire.length = m.wire.length + 200 ∧
    (df_init m).wire.take m.wire.length = m.wire ∧
    (∀ f ∈ frames (sent_between m (df_init m)), f.getD 3 0 ≠ 0x0F) ∧
    (df_init m).lfsr = m.lfsr ∧ (df_init m).seeded = m.seeded ∧
    (df_init m).wake_flag = m.wake_flag ∧
    sent_between (df_init m) (df_init (df_init m)) = sent_between m (df_init m) := by
  obtain ⟨w, hw, hlen, _⟩ := df_init_wire m
  obtain ⟨f1, f2, f3⟩ := df_init_fields m
  have hfr : frames (sent_between m (df_init m)) =
      [[0x7E, 0xFF, 0x06, 0x09, 0x00, 0x00, 0x02, 0xFE, 0xF0, 0xEF],
       [0x7E, 0xFF, 0x06, 0x06, 0x00, 0x00, 0x1C, 0xFE, 0xD9, 0xEF]] := by
    rw [df_init_sent, pkt_select_tf, pkt_volume]
    rfl
  refine ⟨rfl, df_init_sent m, hfr, ?_, ?_, ?_, f1, f2, f3, ?_⟩
  · rw [hw, List.length_append, hlen]
  · rw [hw, List.take_left]
  · intro f hf
    rw [hfr] at hf
    simp only [List.mem_cons, List.mem_singleton, List.not_mem_nil, or_false] at hf
    rcases hf with rfl | rfl <;> decide
  · rw [df_init_sent, df_init_sent]

/-- C15 (the code at the failing input): the volume-set frame that `df_init` sends carries
data_low `0x1C`, whose numeric value is 28, not the 20 of the comment on line 103; it does not
exceed 30. -/
theorem df_init_volume_is_28 :
    ((frames (sent_between (Mcu.boot 0) (df_init (Mcu.boot 0)))).getD 1 []).getD 3 0 = 0x06 ∧
    ((frames (sent_between (Mcu.boot 0) (df_init (Mcu.boot 0)))).getD 1 []).getD 6 0 = 28 ∧
    ((frames (sent_between (Mcu.boot 0) (df_init (Mcu.boot 0)))).getD 1 []).getD 6 0 ≠ 20 ∧
    ((frames (sent_between (Mcu.boot 0) (df_init (Mcu.boot 0)))).getD 1 []).getD 6 0 ≤ 30 := by
  rw [df_init_sent, pkt_select_tf, pkt_volume]
  decide

/-! ## Seeding -/

theorem seed_rng_once_flag (c : Nat) (m : Mcu) : (seed_rng_once c m).seeded ≠ 0 := by
  simp only [seed_rng_once]
  split
  · exact Nat.one_ne_zero
  · assumption

theorem play_random_fields (c : Nat) (m : Mcu) :
    (play_random c m).lfsr = lfsr_next (lfsr_next (seed_rng_once c m).lfsr) ∧
    (play_random c m).seeded = (seed_rng_once c m).seeded ∧
    (play_random c m).wake_flag = m.wake_flag := by
  rw [play_random_unfold]
  obtain ⟨f1, f2, f3⟩ := send_pkt_fields 0x0F
    (if (rand16 (seed_rng_once c m)).1 % 100 < WEIGHT_FOLDER1 then FOLDER1 else FOLDER2)
    (if (rand16 (seed_rng_once c m)).1 % 100 < WEIGHT_FOLDER1
      then FILE1_MIN + (rand16 (rand16 (seed_rng_once c m)).2).1 % (FILE1_MAX - FILE1_MIN + 1)
      else FILE2_MIN + (rand16 (rand16 (seed_rng_once c m)).2).1 % (FILE2_MAX - FILE2_MIN + 1))
    (rand16 (rand16 (seed_rng_once c m)).2).2
  rw [f1, f2, f3, rand16_snd, rand16_snd]
  refine ⟨rfl, rfl, ?_⟩
  show (seed_rng_once c m).wake_flag = m.wake_flag
  simp only [seed_rng_once]
  split <;> rfl

theorem play_random_seeded_indep (c1 c2 : Nat) (m : Mcu) (h : m.seeded ≠ 0) :
    play_random c1 m = play_random c2 m := by
  rw [play_random_unfold, play_random_unfold, seed_rng_once_seeded c1 m h,
    seed_rng_once_seeded c2 m h]

theorem play_many_seeded_indep (cs cs2 : List Nat) (hlen : cs.length = cs2.length) (m : Mcu)
    (h : m.seeded ≠ 0) : play_many cs m = play_many cs2 m := by
  induction cs generalizing cs2 m with
  | nil =>
    cases cs2 with
    | nil => rfl
    | cons _ _ => simp at hlen
  | cons c cs ih =>
    cases cs2 with
    | nil => simp at hlen
    | cons c2 cs2 =>
      have hl : cs.length = cs2.length := by simpa using hlen
      have hs : (play_random c m).seeded ≠ 0 := by
        rw [(play_random_fields c m).2.1]
        exact seed_rng_once_flag c m
      show play_many cs (play_random c m) = play_many cs2 (play_random c2 m)
      rw [← play_random_seeded_indep c c2 m h]
      exact ih cs2 hl (play_random c m) hs

/-- C11: `seed_rng_once` is one-shot.  With the flag clear it leaves the register equal to the
old register XOR the 8-bit counter value and sets the flag; with the flag set it changes
nothing, whatever the counter.  Hence in a sequence of `play_random` calls only the counter
value of the first call can influence the result. -/
theorem seed_rng_once_one_shot (c : Nat) (m : Mcu) :
    (m.seeded = 0 →
      seed_rng_once c m = { m with lfsr := m.lfsr ^^^ (c % 256), seeded := 1 }) ∧
    (m.seeded = 0 → c < 256 → (seed_rng_once c m).lfsr = m.lfsr ^^^ c) ∧
    (m.seeded ≠ 0 → seed_rng_once c m = m) ∧
    (seed_rng_once c m).seeded ≠ 0 ∧
    (∀ c2, seed_rng_once c2 (seed_rng_once c m) = seed_rng_once c m) ∧
    (play_random c m).seeded ≠ 0 ∧
    (∀ c2, play_random c2 (play_random c m) = play_random c (play_random c m)) ∧
    (∀ cs cs2 : List Nat, cs.length = cs2.length →
      play_many (c :: cs) m = play_many (c :: cs2) m) := by
  have hs : (play_random c m).seeded ≠ 0 := by
    rw [(play_random_fields c m).2.1]
    exact seed_rng_once_flag c m
  refine ⟨?_, ?_, seed_rng_once_seeded c m, seed_rng_once_flag c m, ?_, hs, ?_, ?_⟩
  · intro h
    simp [seed_rng_once, h]
  · intro h hc
    simp [seed_rng_once, h, Nat.mod_eq_of_lt hc]
  · intro c2
    exact seed_rng_once_seeded c2 _ (seed_rng_once_flag c m)
  · intro c2
    exact play_random_seeded_indep c2 c _ hs
  · intro cs cs2 hlen
    exact play_many_seeded_indep cs cs2 hlen (play_random c m) hs

theorem seed_from_boot (c portb : Nat) :
    (seed_rng_once c (Mcu.boot portb)).lfsr / 256 = 0xAC ∧
    (seed_rng_once c (Mcu.boot portb)).lfsr ≠ 0 ∧
    (seed_rng_once c (Mcu.boot portb)).lfsr < 65536 := by
  have hx : ∀ d, d < 256 → (0xACE1 ^^^ d) / 256 = 0xAC := by
    intro d hd
    interval_cases d <;> rfl
  have hl : (seed_rng_once c (Mcu.boot portb)).lfsr = 0xACE1 ^^^ (c % 256) := rfl
  have h := hx (c % 256) (Nat.mod_lt _ (by decide))
  rw [hl]
  omega

/-! ## Invariants of the control loop -/

theorem send_pkt_pwr (cmd dh dl : Nat) (m : Mcu) :
    (send_pkt cmd dh dl m).portb.testBit PWR_BIT = m.portb.testBit PWR_BIT ∧
    ∀ x ∈ (send_pkt cmd dh dl m).wire,
      x ∈ m.wire ∨ x.testBit PWR_BIT = m.portb.testBit PWR_BIT := by
  obtain ⟨w, hw, hb, hp⟩ := tx_bytes_spec (pkt cmd dh dl) m
  have hw1 : (send_pkt cmd dh dl m).wire = m.wire ++ w := hw
  refine ⟨hp PWR_BIT (by decide) (by decide), ?_⟩
  intro x hx
  rw [hw1] at hx
  rcases List.mem_append.1 hx with h | h
  · exact Or.inl h
  · exact Or.inr (hb x h PWR_BIT (by decide) (by decide))

theorem df_init_pwr (m : Mcu) :
    (df_init m).portb.testBit PWR_BIT = m.portb.testBit PWR_BIT ∧
    ∀ x ∈ (df_init m).wire, x ∈ m.wire ∨ x.testBit PWR_BIT = m.portb.testBit PWR_BIT := by
  obtain ⟨a1, a2⟩ := send_pkt_pwr 0x09 0x00 0x02 m
  obtain ⟨b1, b2⟩ := send_pkt_pwr 0x06 0x00 0x1C (send_pkt 0x09 0x00 0x02 m)
  rw [df_init_eq]
  refine ⟨b1.trans a1, ?_⟩
  intro x hx
  rcases b2 x hx with h | h
  · exact a2 x h
  · exact Or.inr (h.trans a1)

theorem seed_rng_once_portb (c : Nat) (m : Mcu) : (seed_rng_once c m).portb = m.portb := by
  simp only [seed_rng_once]
  split <;> rfl

theorem play_random_pwr (c : Nat) (m : Mcu) :
    (play_random c m).portb.testBit PWR_BIT = m.portb.testBit PWR_BIT ∧
    ∀ x ∈ (play_random c m).wire,
      x ∈ m.wire ∨ x.testBit PWR_BIT = m.portb.testBit PWR_BIT := by
  have hp : (rand16 (rand16 (seed_rng_once c m)).2).2.portb = m.portb := by
    rw [rand16_snd, rand16_snd]
    exact seed_rng_once_portb c m
  have hw : (rand16 (rand16 (seed_rng_once c m)).2).2.wire = m.wire := by
    rw [rand16_wire, rand16_wire, seed_rng_once_wire]
  rw [play_random_unfold]
  obtain ⟨a1, a2⟩ := send_pkt_pwr 0x0F
    (if (rand16 (seed_rng_once c m)).1 % 100 < WEIGHT_FOLDER1 then FOLDER1 else FOLDER2)
    (if (rand16 (seed_rng_once c m)).1 % 100 < WEIGHT_FOLDER1
      then FILE1_MIN + (rand16 (rand16 (seed_rng_once c m)).2).1 % (FILE1_MAX - FILE1_MIN + 1)
      else FILE2_MIN + (rand16 (rand16 (seed_rng_once c m)).2).1 % (FILE2_MAX - FILE2_MIN + 1))
    (rand16 (rand16 (seed_rng_once c m)).2).2
  rw [hp, hw] at a2
  rw [hp] at a1
  exact ⟨a1, a2⟩

theorem rng_ok_seed (c : Nat) (m : Mcu) (h : rng_ok m) :
    (seed_rng_once c m).lfsr ≠ 0 ∧ (seed_rng_once c m).lfsr < 65536 := by
  obtain ⟨h0, hlt, hboot⟩ := h
  by_cases hs : m.seeded = 0
  · have hx : ∀ d, d < 256 → (0xACE1 ^^^ d) / 256 = 0xAC := by
      intro d hd
      interval_cases d <;> rfl
    have hl : (seed_rng_once c m).lfsr = 0xACE1 ^^^ (c % 256) := by
      simp [seed_rng_once, hs, hboot hs]
    have h := hx (c % 256) (Nat.mod_lt _ (by decide))
    rw [hl]
    omega
  · rw [seed_rng_once_seeded c m hs]
    exact ⟨h0, hlt⟩

theorem rng_ok_play_random (c : Nat) (m : Mcu) (h : rng_ok m) : rng_ok (play_random c m) := by
  obtain ⟨f1, f2, _⟩ := play_random_fields c m
  obtain ⟨s0, slt⟩ := rng_ok_seed c m h
  have n1 := lfsr_next_ne_zero _ s0 slt
  have l1 := lfsr_next_lt _ slt
  refine ⟨?_, ?_, ?_⟩
  · rw [f1]
    exact lfsr_next_ne_zero _ n1 l1
  · rw [f1]
    exact lfsr_next_lt _ l1
  · intro hz
    rw [f2] at hz
    exact absurd hz (seed_rng_once_flag c m)

theorem rng_ok_df_init (m : Mcu) (h : rng_ok m) : rng_ok (df_init m) := by
  obtain ⟨f1, f2, _⟩ := df_init_fields m
  unfold rng_ok
  rw [f1, f2]
  exact h

theorem spec_power_append (st : PowerState) (l : List Ev) (e : Ev) :
    spec_power st (l ++ [e]) = spec_power_next (spec_power st l) e := by
  simp [spec_power, List.foldl_append]

theorem spec_log_ok_append (st : PowerState) (l : List Ev) (e : Ev) :
    spec_log_ok st (l ++ [e]) = (spec_log_ok st l && spec_event_ok (spec_power st l) e) := by
  induction l generalizing st with
  | nil => simp [spec_log_ok, spec_power]
  | cons a l ih =>
    have h := ih (spec_power_next st a)
    show (spec_event_ok st a && spec_log_ok (spec_power_next st a) (l ++ [e])) = _
    rw [h, ← Bool.and_assoc]
    rfl

theorem spec_log_ok_split (st : PowerState) (pre post : List Ev) (e : Ev)
    (h : spec_log_ok st (pre ++ e :: post) = true) :
    spec_event_ok (spec_power st pre) e = true := by
  induction pre generalizing st with
  | nil =>
    simp only [List.nil_append, spec_log_ok, Bool.and_eq_true] at h
    exact h.1
  | cons a pre ih =>
    simp only [List.cons_append, spec_log_ok, Bool.and_eq_true] at h
    exact ih _ h.2

theorem power_inv_wake_flag (m : Mcu) (log : List Ev) (v : Nat) (h : power_inv m log) :
    power_inv { m with wake_flag := v } log := h

theorem power_inv_init (m : Mcu) (log : List Ev) (h : power_inv m log)
    (hp : spec_power PowerState.off log ≠ PowerState.off) :
    power_inv (df_init m) (log ++ [Ev.df_init (m.portb.testBit PWR_BIT)]) ∧
    spec_power PowerState.off (log ++ [Ev.df_init (m.portb.testBit PWR_BIT)]) =
      PowerState.ready := by
  obtain ⟨hr, hw, hl, hb⟩ := h
  have hpb : m.portb.testBit PWR_BIT = true := hb.2 hp
  obtain ⟨q1, q2⟩ := df_init_pwr m
  have hst : spec_power PowerState.off (log ++ [Ev.df_init (m.portb.testBit PWR_BIT)]) =
      PowerState.ready := by
    rw [spec_power_append]
    cases hs : spec_power PowerState.off log with
    | off => exact absurd hs hp
    | powering => rfl
    | ready => rfl
  refine ⟨⟨rng_ok_df_init m hr, ?_, ?_, ?_⟩, hst⟩
  · intro x hx
    rcases q2 x hx with h1 | h1
    · exact hw x h1
    · rw [h1, hpb]
  · rw [spec_log_ok_append, hl, hpb]
    simp [spec_event_ok, hp]
  · rw [q1, hst, hpb]
    simp

theorem power_inv_play (c : Nat) (m : Mcu) (log : List Ev) (h : power_inv m log)
    (hp : spec_power PowerState.off log = PowerState.ready) :
    power_inv (play_random c m) (log ++ [Ev.play_random (m.portb.testBit PWR_BIT)]) ∧
    spec_power PowerState.off (log ++ [Ev.play_random (m.portb.testBit PWR_BIT)]) =
      PowerState.ready := by
  obtain ⟨hr, hw, hl, hb⟩ := h
  have hpb : m.portb.testBit PWR_BIT = true := hb.2 (by rw [hp]; decide)
  obtain ⟨q1, q2⟩ := play_random_pwr c m
  have hst : spec_power PowerState.off (log ++ [Ev.play_random (m.portb.testBit PWR_BIT)]) =
      PowerState.ready := by
    rw [spec_power_append, hp]
    rfl
  refine ⟨⟨rng_ok_play_random c m hr, ?_, ?_, ?_⟩, hst⟩
  · intro x hx
    rcases q2 x hx with h1 | h1
    · exact hw x h1
    · rw [h1, hpb]
  · rw [spec_log_ok_append, hl, hpb, hp]
    rfl
  · rw [q1, hst, hpb]
    simp

theorem power_inv_on (m : Mcu) (log : List Ev) (h : power_inv m log) :
    power_inv (df_power_on m) (log ++ [Ev.df_power_on]) ∧
    spec_power PowerState.off (log ++ [Ev.df_power_on]) = PowerState.powering := by
  obtain ⟨hr, hw, hl, _⟩ := h
  have hst : spec_power PowerState.off (log ++ [Ev.df_power_on]) = PowerState.powering := by
    rw [spec_power_append]
    cases spec_power PowerState.off log <;> rfl
  refine ⟨⟨hr, hw, ?_, ?_⟩, hst⟩
  · rw [spec_log_ok_append, hl]
    cases spec_power PowerState.off log <;> rfl
  · rw [hst]
    have : (df_power_on m).portb.testBit PWR_BIT = true := port_set_self PWR_BIT m
    simp [this]

theorem power_inv_off (m : Mcu) (log : List Ev) (h : power_inv m log) :
    power_inv (df_power_off m) (log ++ [Ev.df_power_off]) ∧
    spec_power PowerState.off (log ++ [Ev.df_power_off]) = PowerState.off := by
  obtain ⟨hr, hw, hl, _⟩ := h
  have hst : spec_power PowerState.off (log ++ [Ev.df_power_off]) = PowerState.off := by
    rw [spec_power_append]
    cases spec_power PowerState.off log <;> rfl
  refine ⟨⟨hr, hw, ?_, ?_⟩, hst⟩
  · rw [spec_log_ok_append, hl]
    cases spec_power PowerState.off log <;> rfl
  · rw [hst]
    have : (df_power_off m).portb.testBit PWR_BIT = false :=
      port_clr_self PWR_BIT (by decide) m
    simp [this]

theorem main_inv_serve_irq (i : Input) (s : Main) (h : main_inv s) :
    main_inv (serve_irq i s) := by
  unfold serve_irq
  split
  · exact h
  · exact h

theorem serve_irq_loc (i : Input) (s : Main) : (serve_irq i s).loc = s.loc := by
  unfold serve_irq
  split <;> rfl

theorem main_inv_idle_tick (s : Main) (h : power_inv s.mcu s.log)
    (hready : spec_power PowerState.off s.log = PowerState.ready)
    (hidle : s.idle_ms ≤ 59990 ∧ s.idle_ms % 10 = 0) : main_inv (idle_tick s) := by
  obtain ⟨hi1, hi2⟩ := hidle
  have hmod : (s.idle_ms + 10) % 65536 = s.idle_ms + 10 := Nat.mod_eq_of_lt (by omega)
  by_cases ht : (s.idle_ms + 10) % 65536 ≥ SLEEP_TIMEOUT
  · have e : idle_tick s = Main.mk (df_power_off s.mcu) Loc.asleep
        ((s.idle_ms + 10) % 65536) (s.log ++ [Ev.df_power_off]) := by
      simp only [idle_tick, ht, if_true, call_df_power_off, delay_ms]
    obtain ⟨hp, hst⟩ := power_inv_off s.mcu s.log h
    rw [e]
    have ht1 : s.idle_ms + 10 ≥ 60000 := by rw [hmod] at ht; exact ht
    refine ⟨hp, ?_, ?_, ?_, ?_, ?_⟩
    · show (s.idle_ms + 10) % 65536 ≤ 60000
      omega
    · intro hl
      rcases hl with hl | hl | hl <;> cases hl
    · intro _
      exact hst
    · intro hl
      cases hl
    · intro hl
      exact absurd rfl hl
  · have e : idle_tick s = Main.mk s.mcu Loc.poll ((s.idle_ms + 10) % 65536) s.log := by
      simp only [idle_tick, ht, if_false, delay_ms]
    rw [e]
    have ht1 : s.idle_ms + 10 < 60000 := by
      rw [hmod] at ht
      simp only [SLEEP_TIMEOUT] at ht
      omega
    refine ⟨h, ?_, ?_, ?_, ?_, ?_⟩
    · show (s.idle_ms + 10) % 65536 ≤ 60000
      omega
    · intro _
      show (s.idle_ms + 10) % 65536 ≤ 59990 ∧ (s.idle_ms + 10) % 65536 % 10 = 0
      omega
    · intro hl
      cases hl
    · intro hl
      cases hl
    · intro _ _
      exact hready

theorem main_inv_wake_up (c : Nat) (s : Main) (h : main_inv s) :
    main_inv (wake_up c s) ∧
    (wake_up c s).log = s.log ++
      [Ev.df_power_on, Ev.df_init true, Ev.play_random true] := by
  obtain ⟨hp, hi, _, _, _, _⟩ := h
  obtain ⟨p1, _⟩ := power_inv_on s.mcu s.log hp
  have hpb : (df_power_on s.mcu).portb.testBit PWR_BIT = true := port_set_self PWR_BIT s.mcu
  obtain ⟨p2, st2⟩ := power_inv_init (df_power_on s.mcu) (s.log ++ [Ev.df_power_on]) p1
    (by rw [(power_inv_on s.mcu s.log hp).2]; decide)
  have hpb2 : (df_init (df_power_on s.mcu)).portb.testBit PWR_BIT = true := by
    rw [(df_init_pwr _).1, hpb]
  obtain ⟨p3, st3⟩ := power_inv_play c { df_init (df_power_on s.mcu) with wake_flag := 0 }
    (s.log ++ [Ev.df_power_on] ++ [Ev.df_init ((df_power_on s.mcu).portb.testBit PWR_BIT)])
    (power_inv_wake_flag _ _ 0 p2) st2
  have e : wake_up c s = Main.mk
      (play_random c { df_init (df_power_on s.mcu) with wake_flag := 0 }) Loc.outer s.idle_ms
      (s.log ++ [Ev.df_power_on] ++ [Ev.df_init ((df_power_on s.mcu).portb.testBit PWR_BIT)] ++
        [Ev.play_random ((df_init (df_power_on s.mcu)).portb.testBit PWR_BIT)]) := rfl
  rw [e]
  refine ⟨⟨p3, hi, ?_, ?_, ?_, ?_⟩, ?_⟩
  · intro hl
    rcases hl with hl | hl | hl <;> cases hl
  · intro hl
    cases hl
  · intro _
    show spec_power PowerState.off _ ≠ PowerState.off
    rw [st3]
    decide
  · intro _ hl
    exact absurd rfl hl
  · show s.log ++ [Ev.df_power_on] ++ [Ev.df_init ((df_power_on s.mcu).portb.testBit PWR_BIT)] ++
        [Ev.play_random ((df_init (df_power_on s.mcu)).portb.testBit PWR_BIT)] = _
    rw [hpb, hpb2]
    simp

theorem main_inv_body (i : Input) (s : Main) (h : main_inv s) : main_inv (main_body i s) := by
  cases s with
  | mk m loc idle log =>
    obtain ⟨hp, hi, hact, hasl, hout, hrdy⟩ := h
    cases loc with
    | outer =>
      obtain ⟨p1, st1⟩ := power_inv_init m log hp (hout rfl)
      have e : main_body i (Main.mk m Loc.outer idle log) =
          Main.mk (df_init m) Loc.check idle (log ++ [Ev.df_init (m.portb.testBit PWR_BIT)]) :=
        rfl
      rw [e]
      refine ⟨p1, hi, ?_, ?_, ?_, ?_⟩
      · intro hl
        rcases hl with hl | hl | hl <;> cases hl
      · intro hl
        cases hl
      · intro hl
        cases hl
      · intro _ _
        exact st1
    | check =>
      have hr := hrdy (fun hl => by cases hl) (fun hl => by cases hl)
      by_cases hw : m.wake_flag ≠ 0
      · obtain ⟨p1, st1⟩ := power_inv_play i.tcnt0 { m with wake_flag := 0 } log
          (power_inv_wake_flag m log 0 hp) hr
        have e : main_body i (Main.mk m Loc.check idle log) =
            Main.mk (play_random i.tcnt0 { m with wake_flag := 0 }) Loc.poll 0
              (log ++ [Ev.play_random (m.portb.testBit PWR_BIT)]) := by
          simp only [main_body, hw, if_true, call_play_random, ne_eq, not_false_eq_true]
        rw [e]
        refine ⟨p1, Nat.zero_le _, ?_, ?_, ?_, ?_⟩
        · intro _
          exact ⟨Nat.zero_le _, rfl⟩
        · intro hl
          cases hl
        · intro hl
          cases hl
        · intro _ _
          exact st1
      · have e : main_body i (Main.mk m Loc.check idle log) = Main.mk m Loc.poll 0 log := by
          simp only [main_body, hw, if_false]
        rw [e]
        refine ⟨hp, Nat.zero_le _, ?_, ?_, ?_, ?_⟩
        · intro _
          exact ⟨Nat.zero_le _, rfl⟩
        · intro hl
          cases hl
        · intro hl
          cases hl
        · intro _ _
          exact hr
    | poll =>
      have hr := hrdy (fun hl => by cases hl) (fun hl => by cases hl)
      have ha := hact (Or.inl rfl)
      by_cases hb : btn_pressed i.pinb = true
      · have e : main_body i (Main.mk m Loc.poll idle log) = Main.mk m Loc.debounce idle log := by
          simp only [main_body, hb, if_true, delay_ms]
        rw [e]
        refine ⟨hp, hi, ?_, ?_, ?_, ?_⟩
        · intro _
          exact ha
        · intro hl
          cases hl
        · intro hl
          cases hl
        · intro _ _
          exact hr
      · have e : main_body i (Main.mk m Loc.poll idle log) =
            idle_tick (Main.mk m Loc.poll idle log) := by
          simp only [main_body, hb]
          rfl
        rw [e]
        exact main_inv_idle_tick _ hp hr ha
    | debounce =>
      have hr := hrdy (fun hl => by cases hl) (fun hl => by cases hl)
      have ha := hact (Or.inr (Or.inl rfl))
      by_cases hb : btn_pressed i.pinb = true
      · obtain ⟨p1, st1⟩ := power_inv_play i.tcnt0 m log hp hr
        have e : main_body i (Main.mk m Loc.debounce idle log) =
            Main.mk (play_random i.tcnt0 m) Loc.wait_release idle
              (log ++ [Ev.play_random (m.portb.testBit PWR_BIT)]) := by
          simp only [main_body, hb, if_true, call_play_random]
        rw [e]
        refine ⟨p1, hi, ?_, ?_, ?_, ?_⟩
        · intro _
          exact ha
        · intro hl
          cases hl
        · intro hl
          cases hl
        · intro _ _
          exact st1
      · have e : main_body i (Main.mk m Loc.debounce idle log) =
            idle_tick (Main.mk m Loc.debounce idle log) := by
          simp only [main_body, hb]
          rfl
        rw [e]
        exact main_inv_idle_tick _ hp hr ha
    | wait_release =>
      have hr := hrdy (fun hl => by cases hl) (fun hl => by cases hl)
      by_cases hb : btn_pressed i.pinb = true
      · have e : main_body i (Main.mk m Loc.wait_release idle log) =
            Main.mk m Loc.wait_release idle log := by
          simp only [main_body, hb, if_true]
        rw [e]
        exact ⟨hp, hi, hact, hasl, hout, hrdy⟩
      · have e : main_body i (Main.mk m Loc.wait_release idle log) =
            idle_tick (Main.mk m Loc.wait_release 0 log) := by
          simp only [main_body, hb, delay_ms]
          rfl
        rw [e]
        exact main_inv_idle_tick _ hp hr ⟨Nat.zero_le _, rfl⟩
    | asleep =>
      by_cases hq : i.irq = true
      · have e : main_body i (Main.mk m Loc.asleep idle log) =
            wake_up i.tcnt0 (Main.mk m Loc.asleep idle log) := by
          simp only [main_body, hq, if_true]
        rw [e]
        exact (main_inv_wake_up i.tcnt0 _ ⟨hp, hi, hact, hasl, hout, hrdy⟩).1
      · have e : main_body i (Main.mk m Loc.asleep idle log) =
            Main.mk m Loc.asleep idle log := by
          simp only [main_body, hq]
          rfl
        rw [e]
        exact ⟨hp, hi, hact, hasl, hout, hrdy⟩

theorem main_inv_step (i : Input) (s : Main) (h : main_inv s) : main_inv (main_step i s) :=
  main_inv_body i _ (main_inv_serve_irq i s h)

theorem main_inv_steps (ins : List Input) (s : Main) (h : main_inv s) :
    main_inv (main_steps ins s) := by
  induction ins generalizing s with
  | nil => exact h
  | cons i ins ih => exact ih (main_step i s) (main_inv_step i s h)

theorem main_inv_init (portb : Nat) : main_inv (main_init portb) := by
  have e : main_init portb = Main.mk
      (df_power_on (port_set TX_BIT (port_set BTN_DDB (Mcu.boot portb)))) Loc.outer 0
      [Ev.df_power_on] := rfl
  rw [e]
  have hl0 : (df_power_on (port_set TX_BIT (port_set BTN_DDB (Mcu.boot portb)))).lfsr = 0xACE1 :=
    rfl
  have hst : spec_power PowerState.off [Ev.df_power_on] = PowerState.powering := rfl
  refine ⟨⟨⟨?_, ?_, fun _ => rfl⟩, ?_, rfl, ?_⟩, Nat.zero_le _, ?_, ?_, ?_, ?_⟩
  · show (df_power_on (port_set TX_BIT (port_set BTN_DDB (Mcu.boot portb)))).lfsr ≠ 0
    rw [hl0]
    decide
  · show (df_power_on (port_set TX_BIT (port_set BTN_DDB (Mcu.boot portb)))).lfsr < 65536
    rw [hl0]
    decide
  · intro x hx
    cases hx
  · show (df_power_on (port_set TX_BIT (port_set BTN_DDB (Mcu.boot portb)))).portb.testBit
        PWR_BIT = true ↔ spec_power PowerState.off [Ev.df_power_on] ≠ PowerState.off
    have hb : (df_power_on (port_set TX_BIT (port_set BTN_DDB (Mcu.boot portb)))).portb.testBit
        PWR_BIT = true := port_set_self PWR_BIT _
    rw [hb, hst]
    decide
  · intro hl
    rcases hl with hl | hl | hl <;> cases hl
  · intro hl
    cases hl
  · intro _
    show spec_power PowerState.off [Ev.df_power_on] ≠ PowerState.off
    rw [hst]
    decide
  · intro _ hl
    exact absurd rfl hl

theorem main_inv_run (portb : Nat) (ins : List Input) : main_inv (main_run portb ins) :=
  main_inv_steps ins (main_init portb) (main_inv_init portb)

/-! ## Executions of the control loop -/

theorem main_steps_append (a b : List Input) (s : Main) :
    main_steps (a ++ b) s = main_steps b (main_steps a s) := by
  simp [main_steps, List.foldl_append]

theorem main_run_eq (portb : Nat) (ins : List Input) :
    main_run portb ins = main_steps ins (main_init portb) := rfl

theorem serve_irq_false (i : Input) (s : Main) (h : i.irq = false) : serve_irq i s = s := by
  simp [serve_irq, h]

theorem serve_irq_fields (i : Input) (s : Main) :
    (serve_irq i s).loc = s.loc ∧ (serve_irq i s).idle_ms = s.idle_ms ∧
    (serve_irq i s).log = s.log ∧ (serve_irq i s).mcu.wire = s.mcu.wire ∧
    (serve_irq i s).mcu.portb = s.mcu.portb ∧ (serve_irq i s).mcu.lfsr = s.mcu.lfsr ∧
    (serve_irq i s).mcu.seeded = s.mcu.seeded := by
  unfold serve_irq
  split <;> exact ⟨rfl, rfl, rfl, rfl, rfl, rfl, rfl⟩

theorem idle_tick_below (s : Main) (h : s.idle_ms + 10 < 60000) :
    idle_tick s = Main.mk s.mcu Loc.poll (s.idle_ms + 10) s.log := by
  have hmod : (s.idle_ms + 10) % 65536 = s.idle_ms + 10 := Nat.mod_eq_of_lt (by omega)
  have ht : ¬ (s.idle_ms + 10 ≥ SLEEP_TIMEOUT) := by
    simp only [SLEEP_TIMEOUT]
    omega
  simp only [idle_tick, hmod, ht, if_false, delay_ms]

theorem idle_tick_timeout (s : Main) (h : s.idle_ms + 10 = 60000) :
    idle_tick s = Main.mk (df_power_off s.mcu) Loc.asleep 60000 (s.log ++ [Ev.df_power_off]) := by
  have hmod : (s.idle_ms + 10) % 65536 = 60000 := by rw [h]
  have ht : (60000 : Nat) ≥ SLEEP_TIMEOUT := by decide
  simp only [idle_tick, hmod, ht, if_true, delay_ms, call_df_power_off]

theorem poll_step_released (i : Input) (s : Main) (hloc : s.loc = Loc.poll)
    (hrel : btn_pressed i.pinb = false) : main_step i s = idle_tick (serve_irq i s) := by
  have hl := (serve_irq_fields i s).1
  rw [hloc] at hl
  simp only [main_step, main_body, hl, hrel]
  rfl

theorem poll_steps_released (ins : List Input) (s : Main) (hloc : s.loc = Loc.poll)
    (hrel : ∀ i ∈ ins, btn_pressed i.pinb = false)
    (hlt : s.idle_ms + 10 * ins.length < 60000) :
    (main_steps ins s).loc = Loc.poll ∧
    (main_steps ins s).idle_ms = s.idle_ms + 10 * ins.length ∧
    (main_steps ins s).log = s.log ∧
    (main_steps ins s).mcu.wire = s.mcu.wire ∧
    (main_steps ins s).mcu.portb = s.mcu.portb := by
  induction ins generalizing s with
  | nil => exact ⟨hloc, rfl, rfl, rfl, rfl⟩
  | cons i ins ih =>
    obtain ⟨f1, f2, f3, f4, f5, _, _⟩ := serve_irq_fields i s
    have hlen : (i :: ins).length = ins.length + 1 := rfl
    rw [hlen] at hlt
    have hstep : main_step i s =
        Main.mk (serve_irq i s).mcu Loc.poll (s.idle_ms + 10) s.log := by
      rw [poll_step_released i s hloc (hrel i (List.mem_cons_self i ins)),
        idle_tick_below _ (by rw [f2]; omega), f2, f3]
    have h := ih (main_step i s) (by rw [hstep])
      (fun j hj => hrel j (List.mem_cons_of_mem i hj))
      (by rw [hstep]; show s.idle_ms + 10 + 10 * ins.length < 60000; omega)
    obtain ⟨h1, h2, h3, h4, h5⟩ := h
    have e : main_steps (i :: ins) s = main_steps ins (main_step i s) := rfl
    rw [e, hlen]
    refine ⟨h1, ?_, ?_, ?_, ?_⟩
    · rw [h2, hstep]
      show s.idle_ms + 10 + 10 * ins.length = s.idle_ms + 10 * (ins.length + 1)
      omega
    · rw [h3, hstep]
    · rw [h4, hstep]
      exact f4
    · rw [h5, hstep]
      exact f5

theorem asleep_steps_no_irq (ins : List Input) (s : Main) (hloc : s.loc = Loc.asleep)
    (hno : ∀ i ∈ ins, i.irq = false) : main_steps ins s = s := by
  induction ins with
  | nil => rfl
  | cons i ins ih =>
    have hi : i.irq = false := hno i (List.mem_cons_self i ins)
    have hstep : main_step i s = s := by
      simp only [main_step, serve_irq_false i s hi, main_body, hloc, hi]
      rfl
    have e : main_steps (i :: ins) s = main_steps ins (main_step i s) := rfl
    rw [e, hstep]
    exact ih (fun j hj => hno j (List.mem_cons_of_mem i hj))

theorem timeout_steps (ins : List Input) (s : Main) (hloc : s.loc = Loc.poll)
    (h0 : s.idle_ms = 0) (hrel : ∀ i ∈ ins, btn_pressed i.pinb = false)
    (hlen : ins.length = 6000) :
    (main_steps ins s).loc = Loc.asleep ∧ (main_steps ins s).idle_ms = 60000 ∧
    (main_steps ins s).log = s.log ++ [Ev.df_power_off] ∧
    (main_steps (ins.take 5999) s).loc = Loc.poll ∧
    (main_steps (ins.take 5999) s).idle_ms = 59990 := by
  have hsplit : ins = ins.take 5999 ++ ins.drop 5999 := (List.take_append_drop 5999 ins).symm
  have hl1 : (ins.take 5999).length = 5999 := by
    rw [List.length_take, hlen]
    rfl
  have hl2 : (ins.drop 5999).length = 1 := by
    rw [List.length_drop, hlen]
  obtain ⟨i, hi⟩ := List.length_eq_one.1 hl2
  obtain ⟨a1, a2, a3, _, _⟩ := poll_steps_released (ins.take 5999) s hloc
    (fun j hj => hrel j (List.mem_of_mem_take hj)) (by rw [hl1, h0]; decide)
  rw [hl1, h0] at a2
  have hirel : btn_pressed i.pinb = false := by
    apply hrel
    rw [hsplit, hi]
    simp
  obtain ⟨f1, f2, f3, _⟩ := serve_irq_fields i (main_steps (ins.take 5999) s)
  have hlast : main_steps ins s = main_step i (main_steps (ins.take 5999) s) := by
    conv_lhs => rw [hsplit, hi, main_steps_append]
    rfl
  have hstep := poll_step_released i _ a1 hirel
  rw [idle_tick_timeout _ (by rw [f2, a2])] at hstep
  rw [hlast, hstep]
  exact ⟨rfl, rfl, by show (serve_irq i _).log ++ _ = _; rw [f3, a3], a1, a2⟩

/-- C17: with `SLEEP_TIMEOUT = 60000` and the 16-bit `idle_ms` advanced by 10 per poll, from the
start of an active period (`idle_ms = 0`) with the button never read as pressed, the loop is
still polling after every number of polls below 6000 (after 5999 polls `idle_ms = 59990`), the
6000th poll brings `idle_ms` to 60000 and enters the sleep branch, which switches the module
off once and stays asleep until an interrupt; in every execution `idle_ms` stays at most
60000, so the 16-bit counter never wraps. -/
theorem idle_timeout_exact (s : Main) (ins : List Input) (hloc : s.loc = Loc.poll)
    (h0 : s.idle_ms = 0) (hrel : ∀ i ∈ ins, btn_pressed i.pinb = false) :
    SLEEP_TIMEOUT = 60000 ∧
    (ins.length < 6000 →
      (main_steps ins s).loc = Loc.poll ∧ (main_steps ins s).idle_ms = 10 * ins.length ∧
      (main_steps ins s).log = s.log) ∧
    (ins.length = 5999 →
      (main_steps ins s).loc = Loc.poll ∧ (main_steps ins s).idle_ms = 59990) ∧
    (ins.length = 6000 →
      (main_steps ins s).loc = Loc.asleep ∧ (main_steps ins s).idle_ms = 60000 ∧
      (main_steps ins s).log = s.log ++ [Ev.df_power_off] ∧
      ∀ more : List Input, (∀ i ∈ more, i.irq = false) →
        main_steps (ins ++ more) s = main_steps ins s) ∧
    (∀ (portb : Nat) (all : List Input),
      (main_run portb all).idle_ms ≤ 60000 ∧ (main_run portb all).idle_ms < 65536) := by
  have hbelow : ins.length < 6000 →
      (main_steps ins s).loc = Loc.poll ∧ (main_steps ins s).idle_ms = 10 * ins.length ∧
      (main_steps ins s).log = s.log := by
    intro hlt
    obtain ⟨a1, a2, a3, _, _⟩ := poll_steps_released ins s hloc hrel (by rw [h0]; omega)
    rw [h0] at a2
    exact ⟨a1, by rw [a2]; omega, a3⟩
  refine ⟨rfl, hbelow, ?_, ?_, ?_⟩
  · intro h
    obtain ⟨a1, a2, _⟩ := hbelow (by omega)
    exact ⟨a1, by rw [a2, h]⟩
  · intro h
    obtain ⟨a1, a2, a3, _, _⟩ := timeout_steps ins s hloc h0 hrel h
    refine ⟨a1, a2, a3, ?_⟩
    intro more hno
    rw [main_steps_append]
    exact asleep_steps_no_irq more _ a1 hno
  · intro portb all
    obtain ⟨_, hi, _⟩ := main_inv_run portb all
    exact ⟨hi, by omega⟩

theorem play_random_wire (c : Nat) (m : Mcu) :
    ∃ (w : List Nat) (folder file : Nat), (play_random c m).wire = m.wire ++ w ∧
      w.length = 100 ∧ ∀ rest, uart_rx (w ++ rest) = pkt 0x0F folder file ++ uart_rx rest := by
  have hw : (rand16 (rand16 (seed_rng_once c m)).2).2.wire = m.wire := by
    rw [rand16_wire, rand16_wire, seed_rng_once_wire]
  obtain ⟨w, h1, h2, h3⟩ := send_pkt_wire 0x0F
    (if (rand16 (seed_rng_once c m)).1 % 100 < WEIGHT_FOLDER1 then FOLDER1 else FOLDER2)
    (if (rand16 (seed_rng_once c m)).1 % 100 < WEIGHT_FOLDER1
      then FILE1_MIN + (rand16 (rand16 (seed_rng_once c m)).2).1 % (FILE1_MAX - FILE1_MIN + 1)
      else FILE2_MIN + (rand16 (rand16 (seed_rng_once c m)).2).1 % (FILE2_MAX - FILE2_MIN + 1))
    (by decide) (by split <;> decide)
    (by
      split
      · simp only [FILE1_MIN, FILE1_MAX]; omega
      · simp only [FILE2_MIN, FILE2_MAX]; omega)
    (rand16 (rand16 (seed_rng_once c m)).2).2
  rw [hw, ← play_random_unfold] at h1
  exact ⟨w, _, _, h1, h2, h3⟩

theorem frames_pkt (cmd dh dl : Nat) (rest : List Nat) :
    frames (pkt cmd dh dl ++ rest) = pkt cmd dh dl :: frames rest := by
  simp [pkt, frames]

theorem pkt_cmd (cmd dh dl : Nat) : (pkt cmd dh dl).getD 3 0 = cmd := rfl

theorem wake_up_eq (c : Nat) (s : Main) :
    wake_up c s = Main.mk
      (play_random c { df_init (df_power_on s.mcu) with wake_flag := 0 }) Loc.outer s.idle_ms
      (s.log ++ [Ev.df_power_on, Ev.df_init true, Ev.play_random true]) := by
  have hpb : (df_power_on s.mcu).portb.testBit PWR_BIT = true := port_set_self PWR_BIT s.mcu
  have hpb2 : (df_init (df_power_on s.mcu)).portb.testBit PWR_BIT = true := by
    rw [(df_init_pwr _).1, hpb]
  have e : wake_up c s = Main.mk
      (play_random c { df_init (df_power_on s.mcu) with wake_flag := 0 }) Loc.outer s.idle_ms
      (s.log ++ [Ev.df_power_on] ++ [Ev.df_init ((df_power_on s.mcu).portb.testBit PWR_BIT)] ++
        [Ev.play_random ((df_init (df_power_on s.mcu)).portb.testBit PWR_BIT)]) := rfl
  rw [e, hpb, hpb2]
  simp

theorem wake_step_eq (i : Input) (s : Main) (hloc : s.loc = Loc.asleep) (hq : i.irq = true) :
    main_step i s = Main.mk
      (play_random i.tcnt0 { df_init (df_power_on (isr_pcint0 s.mcu)) with wake_flag := 0 })
      Loc.outer s.idle_ms
      (s.log ++ [Ev.df_power_on, Ev.df_init true, Ev.play_random true]) := by
  have e : serve_irq i s = { s with mcu := isr_pcint0 s.mcu } := by
    simp [serve_irq, hq]
  have hl : ({ s with mcu := isr_pcint0 s.mcu } : Main).loc = Loc.asleep := hloc
  simp only [main_step, e, main_body, hl, hq, if_true]
  rw [wake_up_eq]

theorem outer_step_eq (i : Input) (s : Main) (hloc : s.loc = Loc.outer) (hq : i.irq = false) :
    main_step i s = Main.mk (df_init s.mcu) Loc.check s.idle_ms
      (s.log ++ [Ev.df_init (s.mcu.portb.testBit PWR_BIT)]) := by
  simp only [main_step, serve_irq_false i s hq, main_body, hloc, call_df_init]

theorem check_step_idle (i : Input) (s : Main) (hloc : s.loc = Loc.check) (hq : i.irq = false)
    (hw : s.mcu.wake_flag = 0) : main_step i s = Main.mk s.mcu Loc.poll 0 s.log := by
  simp only [main_step, serve_irq_false i s hq, main_body, hloc, hw]
  rfl

/-- C18: when the device is asleep and the interrupt wakes it, and no further interrupt
arrives, then up to the first poll of the next active period the program switches the module
on, runs `df_init`, plays once and runs `df_init` again: the frames sent are select, volume,
play, select, volume, so exactly one play frame (command `0x0F`) is transmitted, after
`df_power_on` and a `df_init`; `wake_flag` is 0 right after the play and still 0 when the active
loop resumes, which it does with `idle_ms = 0`. -/
theorem wake_plays_once (s : Main) (i1 i2 i3 : Input) (hloc : s.loc = Loc.asleep)
    (h1 : i1.irq = true) (h2 : i2.irq = false) (h3 : i3.irq = false) :
    (serve_irq i1 s).mcu.wake_flag = 1 ∧
    (main_step i1 s).loc = Loc.outer ∧ (main_step i1 s).mcu.wake_flag = 0 ∧
    (main_step i1 s).log =
      s.log ++ [Ev.df_power_on, Ev.df_init true, Ev.play_random true] ∧
    (main_steps [i1, i2, i3] s).loc = Loc.poll ∧
    (main_steps [i1, i2, i3] s).idle_ms = 0 ∧
    (main_steps [i1, i2, i3] s).mcu.wake_flag = 0 ∧
    (main_steps [i1, i2, i3] s).log =
      s.log ++ [Ev.df_power_on, Ev.df_init true, Ev.play_random true, Ev.df_init true] ∧
    (frames (sent_between s.mcu (main_steps [i1, i2, i3] s).mcu)).map (fun f => f.getD 3 0) =
      [0x09, 0x06, 0x0F, 0x09, 0x06] ∧
    ((frames (sent_between s.mcu (main_steps [i1, i2, i3] s).mcu)).filter
      (fun f => decide (f.getD 3 0 = 0x0F))).length = 1 := by
  have e1 := wake_step_eq i1 s hloc h1
  have hwf1 : (main_step i1 s).mcu.wake_flag = 0 := by
    rw [e1]
    exact (play_random_fields i1.tcnt0 _).2.2
  have hpb1 : (main_step i1 s).mcu.portb.testBit PWR_BIT = true := by
    rw [e1]
    show (play_random i1.tcnt0 _).portb.testBit PWR_BIT = true
    rw [(play_random_pwr i1.tcnt0 _).1]
    show (df_init (df_power_on (isr_pcint0 s.mcu))).portb.testBit PWR_BIT = true
    rw [(df_init_pwr _).1]
    exact port_set_self PWR_BIT _
  have e2 := outer_step_eq i2 (main_step i1 s) (by rw [e1]) h2
  rw [hpb1] at e2
  have hwf2 : (main_step i2 (main_step i1 s)).mcu.wake_flag = 0 := by
    rw [e2]
    exact (df_init_fields _).2.2.trans hwf1
  have e3 := check_step_idle i3 (main_step i2 (main_step i1 s)) (by rw [e2]) h3 hwf2
  have e3a : main_steps [i1, i2, i3] s = main_step i3 (main_step i2 (main_step i1 s)) := rfl
  have e3b : main_steps [i1, i2, i3] s = Main.mk (df_init (main_step i1 s).mcu) Loc.poll 0
      ((main_step i1 s).log ++ [Ev.df_init true]) := by
    rw [e3a, e3, e2]
  have hlog1 : (main_step i1 s).log =
      s.log ++ [Ev.df_power_on, Ev.df_init true, Ev.play_random true] := by rw [e1]
  obtain ⟨wa, ha, _, ra⟩ := df_init_wire (df_power_on (isr_pcint0 s.mcu))
  obtain ⟨wp, folder, file, hp, _, rp⟩ := play_random_wire i1.tcnt0
    { df_init (df_power_on (isr_pcint0 s.mcu)) with wake_flag := 0 }
  obtain ⟨wb, hb, _, rb⟩ := df_init_wire (main_step i1 s).mcu
  have hwire : (main_steps [i1, i2, i3] s).mcu.wire = s.mcu.wire ++ (wa ++ (wp ++ wb)) := by
    rw [e3b]
    show (df_init (main_step i1 s).mcu).wire = _
    rw [hb, e1]
    show (play_random i1.tcnt0 _).wire ++ wb = _
    rw [hp]
    show (df_init (df_power_on (isr_pcint0 s.mcu))).wire ++ wp ++ wb = _
    rw [ha]
    show s.mcu.wire ++ wa ++ wp ++ wb = _
    simp
  have hsent : sent_between s.mcu (main_steps [i1, i2, i3] s).mcu =
      pkt 0x09 0x00 0x02 ++ (pkt 0x06 0x00 0x1C ++ (pkt 0x0F folder file ++
        (pkt 0x09 0x00 0x02 ++ (pkt 0x06 0x00 0x1C ++ [])))) := by
    have hr := rb []
    rw [List.append_nil] at hr
    simp only [sent_between, hwire, List.drop_left, ra, rp, hr]
    simp [uart_rx]
  have hfr : frames (sent_between s.mcu (main_steps [i1, i2, i3] s).mcu) =
      [pkt 0x09 0x00 0x02, pkt 0x06 0x00 0x1C, pkt 0x0F folder file, pkt 0x09 0x00 0x02,
        pkt 0x06 0x00 0x1C] := by
    rw [hsent, frames_pkt, frames_pkt, frames_pkt, frames_pkt, frames_pkt]
    rfl
  refine ⟨?_, by rw [e1], hwf1, hlog1, by rw [e3b], by rw [e3b], ?_, ?_, ?_, ?_⟩
  · simp [serve_irq, h1, isr_pcint0]
  · rw [e3b]
    exact (df_init_fields _).2.2.trans hwf1
  · rw [e3b]
    show (main_step i1 s).log ++ [Ev.df_init true] = _
    rw [hlog1]
    simp
  · rw [hfr]
    rfl
  · rw [hfr]
    rfl

theorem wake_plays_once_witness :
    (Main.mk (Mcu.boot 0) Loc.asleep 60000 []).loc = Loc.asleep ∧
    (Input.mk true 0 7).irq = true ∧ (Input.mk false 0 0).irq = false ∧
    (Input.mk false 8 0).irq = false ∧
    (serve_irq (Input.mk true 0 7) (Main.mk (Mcu.boot 0) Loc.asleep 60000 [])).mcu.wake_flag =
      1 ∧
    (main_step (Input.mk true 0 7) (Main.mk (Mcu.boot 0) Loc.asleep 60000 [])).loc =
      Loc.outer ∧
    (main_step (Input.mk true 0 7)
      (Main.mk (Mcu.boot 0) Loc.asleep 60000 [])).mcu.wake_flag = 0 ∧
    (main_step (Input.mk true 0 7) (Main.mk (Mcu.boot 0) Loc.asleep 60000 [])).log =
      (Main.mk (Mcu.boot 0) Loc.asleep 60000 []).log ++
        [Ev.df_power_on, Ev.df_init true, Ev.play_random true] ∧
    (main_steps [Input.mk true 0 7, Input.mk false 0 0, Input.mk false 8 0]
      (Main.mk (Mcu.boot 0) Loc.asleep 60000 [])).loc = Loc.poll ∧
    (main_steps [Input.mk true 0 7, Input.mk false 0 0, Input.mk false 8 0]
      (Main.mk (Mcu.boot 0) Loc.asleep 60000 [])).idle_ms = 0 ∧
    (main_steps [Input.mk true 0 7, Input.mk false 0 0, Input.mk false 8 0]
      (Main.mk (Mcu.boot 0) Loc.asleep 60000 [])).mcu.wake_flag = 0 ∧
    (main_steps [Input.mk true 0 7, Input.mk false 0 0, Input.mk false 8 0]
      (Main.mk (Mcu.boot 0) Loc.asleep 60000 [])).log =
      (Main.mk (Mcu.boot 0) Loc.asleep 60000 []).log ++
        [Ev.df_power_on, Ev.df_init true, Ev.play_random true, Ev.df_init true] ∧
    (frames (sent_between (Main.mk (Mcu.boot 0) Loc.asleep 60000 []).mcu
      (main_steps [Input.mk true 0 7, Input.mk false 0 0, Input.mk false 8 0]
        (Main.mk (Mcu.boot 0) Loc.asleep 60000 [])).mcu)).map (fun f => f.getD 3 0) =
      [0x09, 0x06, 0x0F, 0x09, 0x06] ∧
    ((frames (sent_between (Main.mk (Mcu.boot 0) Loc.asleep 60000 []).mcu
      (main_steps [Input.mk true 0 7, Input.mk false 0 0, Input.mk false 8 0]
        (Main.mk (Mcu.boot 0) Loc.asleep 60000 [])).mcu)).filter
      (fun f => decide (f.getD 3 0 = 0x0F))).length = 1 :=
  ⟨rfl, rfl, rfl, rfl,
    wake_plays_once (Main.mk (Mcu.boot 0) Loc.asleep 60000 []) (Input.mk true 0 7)
      (Input.mk false 0 0) (Input.mk false 8 0) rfl rfl rfl rfl⟩

theorem wake_then_outer_log (s : Main) (i1 i2 : Input) (hloc : s.loc = Loc.asleep)
    (h1 : i1.irq = true) (h2 : i2.irq = false) :
    (main_step i2 (main_step i1 s)).log =
      s.log ++ [Ev.df_power_on, Ev.df_init true, Ev.play_random true, Ev.df_init true] ∧
    (main_step i2 (main_step i1 s)).loc = Loc.check := by
  have e1 := wake_step_eq i1 s hloc h1
  have hpb1 : (main_step i1 s).mcu.portb.testBit PWR_BIT = true := by
    rw [e1]
    show (play_random i1.tcnt0 _).portb.testBit PWR_BIT = true
    rw [(play_random_pwr i1.tcnt0 _).1]
    show (df_init (df_power_on (isr_pcint0 s.mcu))).portb.testBit PWR_BIT = true
    rw [(df_init_pwr _).1]
    exact port_set_self PWR_BIT _
  have e2 := outer_step_eq i2 (main_step i1 s) (by rw [e1]) h2
  rw [hpb1] at e2
  have hlog1 : (main_step i1 s).log =
      s.log ++ [Ev.df_power_on, Ev.df_init true, Ev.play_random true] := by rw [e1]
  rw [e2]
  refine ⟨?_, rfl⟩
  show (main_step i1 s).log ++ [Ev.df_init true] = _
  rw [hlog1]
  simp

theorem boot_two_steps (portb : Nat) (i1 i2 : Input) (h1 : i1.irq = false)
    (h2 : i2.irq = false) :
    (main_run portb [i1, i2]).loc = Loc.poll ∧ (main_run portb [i1, i2]).idle_ms = 0 ∧
    (main_run portb [i1, i2]).log = [Ev.df_power_on, Ev.df_init true] := by
  have hpb : (main_init portb).mcu.portb.testBit PWR_BIT = true := port_set_self PWR_BIT _
  have e1 := outer_step_eq i1 (main_init portb) rfl h1
  rw [hpb] at e1
  have hw : (main_step i1 (main_init portb)).mcu.wake_flag = 0 := by
    rw [e1]
    exact (df_init_fields _).2.2
  have e2 := check_step_idle i2 (main_step i1 (main_init portb)) (by rw [e1]) h2 hw
  have e : main_run portb [i1, i2] = main_step i2 (main_step i1 (main_init portb)) := rfl
  rw [e, e2, e1]
  exact ⟨rfl, rfl, rfl⟩

theorem idle_timeout_exact_witness :
    (main_run 0 [Input.mk false 8 0, Input.mk false 8 0]).loc = Loc.poll ∧
    (main_run 0 [Input.mk false 8 0, Input.mk false 8 0]).idle_ms = 0 ∧
    (∀ i ∈ (List.replicate 6000 (Input.mk false 8 0)), btn_pressed i.pinb = false) ∧
    (List.replicate 6000 (Input.mk false 8 0)).length = 6000 ∧
    (main_steps (List.replicate 6000 (Input.mk false 8 0))
      (main_run 0 [Input.mk false 8 0, Input.mk false 8 0])).loc = Loc.asleep ∧
    (main_steps (List.replicate 6000 (Input.mk false 8 0))
      (main_run 0 [Input.mk false 8 0, Input.mk false 8 0])).idle_ms = 60000 ∧
    (main_steps (List.replicate 6000 (Input.mk false 8 0))
      (main_run 0 [Input.mk false 8 0, Input.mk false 8 0])).log =
        [Ev.df_power_on, Ev.df_init true, Ev.df_power_off] ∧
    (List.replicate 5999 (Input.mk false 8 0)).length = 5999 ∧
    (main_steps (List.replicate 5999 (Input.mk false 8 0))
      (main_run 0 [Input.mk false 8 0, Input.mk false 8 0])).loc = Loc.poll ∧
    (main_steps (List.replicate 5999 (Input.mk false 8 0))
      (main_run 0 [Input.mk false 8 0, Input.mk false 8 0])).idle_ms = 59990 ∧
    (main_steps (List.replicate 5999 (Input.mk false 8 0))
      (main_run 0 [Input.mk false 8 0, Input.mk false 8 0])).log =
        [Ev.df_power_on, Ev.df_init true] ∧
    SLEEP_TIMEOUT = 60000 ∧
    ((List.replicate 6000 (Input.mk false 8 0)).length < 6000 →
      (main_steps (List.replicate 6000 (Input.mk false 8 0))
        (main_run 0 [Input.mk false 8 0, Input.mk false 8 0])).loc = Loc.poll ∧
      (main_steps (List.replicate 6000 (Input.mk false 8 0))
        (main_run 0 [Input.mk false 8 0, Input.mk false 8 0])).idle_ms =
          10 * (List.replicate 6000 (Input.mk false 8 0)).length ∧
      (main_steps (List.replicate 6000 (Input.mk false 8 0))
        (main_run 0 [Input.mk false 8 0, Input.mk false 8 0])).log =
          (main_run 0 [Input.mk false 8 0, Input.mk false 8 0]).log) ∧
    ((List.replicate 6000 (Input.mk false 8 0)).length = 5999 →
      (main_steps (List.replicate 6000 (Input.mk false 8 0))
        (main_run 0 [Input.mk false 8 0, Input.mk false 8 0])).loc = Loc.poll ∧
      (main_steps (List.replicate 6000 (Input.mk false 8 0))
        (main_run 0 [Input.mk false 8 0, Input.mk false 8 0])).idle_ms = 59990) ∧
    ((List.replicate 6000 (Input.mk false 8 0)).length = 6000 →
      (main_steps (List.replicate 6000 (Input.mk false 8 0))
        (main_run 0 [Input.mk false 8 0, Input.mk false 8 0])).loc = Loc.asleep ∧
      (main_steps (List.replicate 6000 (Input.mk false 8 0))
        (main_run 0 [Input.mk false 8 0, Input.mk false 8 0])).idle_ms = 60000 ∧
      (main_steps (List.replicate 6000 (Input.mk false 8 0))
        (main_run 0 [Input.mk false 8 0, Input.mk false 8 0])).log =
          (main_run 0 [Input.mk false 8 0, Input.mk false 8 0]).log ++ [Ev.df_power_off] ∧
      ∀ more : List Input, (∀ i ∈ more, i.irq = false) →
        main_steps ((List.replicate 6000 (Input.mk false 8 0)) ++ more)
          (main_run 0 [Input.mk false 8 0, Input.mk false 8 0]) =
        main_steps (List.replicate 6000 (Input.mk false 8 0))
          (main_run 0 [Input.mk false 8 0, Input.mk false 8 0])) ∧
    (∀ (portb : Nat) (all : List Input),
      (main_run portb all).idle_ms ≤ 60000 ∧ (main_run portb all).idle_ms < 65536) := by
  have hloc : (main_run 0 [Input.mk false 8 0, Input.mk false 8 0]).loc = Loc.poll :=
    (boot_two_steps 0 (Input.mk false 8 0) (Input.mk false 8 0) rfl rfl).1
  have h0 : (main_run 0 [Input.mk false 8 0, Input.mk false 8 0]).idle_ms = 0 :=
    (boot_two_steps 0 (Input.mk false 8 0) (Input.mk false 8 0) rfl rfl).2.1
  have hlog : (main_run 0 [Input.mk false 8 0, Input.mk false 8 0]).log =
      [Ev.df_power_on, Ev.df_init true] :=
    (boot_two_steps 0 (Input.mk false 8 0) (Input.mk false 8 0) rfl rfl).2.2
  have hrel : ∀ n, ∀ i ∈ List.replicate n (Input.mk false 8 0), btn_pressed i.pinb = false := by
    intro n i hi
    rw [List.eq_of_mem_replicate hi]
    decide
  have len6 : (List.replicate 6000 (Input.mk false 8 0)).length = 6000 := List.length_replicate _ _
  have len5 : (List.replicate 5999 (Input.mk false 8 0)).length = 5999 := List.length_replicate _ _
  have t6 := idle_timeout_exact (main_run 0 [Input.mk false 8 0, Input.mk false 8 0])
    (List.replicate 6000 (Input.mk false 8 0)) hloc h0 (hrel 6000)
  have t5 := idle_timeout_exact (main_run 0 [Input.mk false 8 0, Input.mk false 8 0])
    (List.replicate 5999 (Input.mk false 8 0)) hloc h0 (hrel 5999)
  obtain ⟨a1, a2, a3, _⟩ := t6.2.2.2.1 len6
  obtain ⟨b1, b2⟩ := t5.2.2.1 len5
  obtain ⟨_, _, b3⟩ := t5.2.1 (by rw [len5]; decide)
  rw [hlog] at a3 b3
  exact ⟨hloc, h0, hrel 6000, len6, a1, a2, a3, len5, b1, b2, b3, t6⟩

/-- C16 (the code at the failing input): from reset with the button never pressed, the idle
timeout after 6000 polls switches the module off; the wake-up interrupt then runs
`df_power_on`, `df_init` (line 184) and `play_random`, and the next pass of the outer loop runs
`df_init` again (line 145): two `df_init` calls since the last `df_power_on`, with no
`df_power_off` in between. -/
theorem df_init_twice_after_wake :
    (main_run 0 ([Input.mk false 8 0, Input.mk false 8 0] ++
      List.replicate 6000 (Input.mk false 8 0) ++
      [Input.mk true 0 0, Input.mk false 0 0])).log =
      [Ev.df_power_on, Ev.df_init true, Ev.df_power_off,
        Ev.df_power_on, Ev.df_init true, Ev.play_random true, Ev.df_init true] ∧
    inits_since_power_on
      [Ev.df_power_on, Ev.df_init true, Ev.df_power_off,
        Ev.df_power_on, Ev.df_init true, Ev.play_random true, Ev.df_init true] = 2 := by
  obtain ⟨a1, a2, a3⟩ := boot_two_steps 0 (Input.mk false 8 0) (Input.mk false 8 0) rfl rfl
  have hrel : ∀ i ∈ List.replicate 6000 (Input.mk false 8 0), btn_pressed i.pinb = false := by
    intro i hi
    rw [List.eq_of_mem_replicate hi]
    decide
  obtain ⟨b1, _, b3, _, _⟩ := timeout_steps (List.replicate 6000 (Input.mk false 8 0))
    (main_run 0 [Input.mk false 8 0, Input.mk false 8 0]) a1 a2 hrel (List.length_replicate _ _)
  obtain ⟨c1, _⟩ := wake_then_outer_log _ (Input.mk true 0 0) (Input.mk false 0 0) b1 rfl rfl
  have hlog : (main_run 0 ([Input.mk false 8 0, Input.mk false 8 0] ++
      List.replicate 6000 (Input.mk false 8 0) ++
      [Input.mk true 0 0, Input.mk false 0 0])).log =
      [Ev.df_power_on, Ev.df_init true, Ev.df_power_off,
        Ev.df_power_on, Ev.df_init true, Ev.play_random true, Ev.df_init true] := by
    rw [main_run_eq, main_steps_append, main_steps_append]
    have e : ∀ t, main_steps [Input.mk true 0 0, Input.mk false 0 0] t =
        main_step (Input.mk false 0 0) (main_step (Input.mk true 0 0) t) := fun _ => rfl
    rw [e, ← main_run_eq, c1, b3, a3]
    rfl
  exact ⟨hlog, by decide⟩

theorem spec_power_on_split (l : List Ev)
    (h : spec_power PowerState.off l ≠ PowerState.off) :
    ∃ a b, l = a ++ Ev.df_power_on :: b ∧ Ev.df_power_off ∉ b ∧ Ev.df_power_on ∉ b ∧
      (spec_power PowerState.off l = PowerState.ready → ∃ q, Ev.df_init q ∈ b) := by
  induction l using List.reverseRecOn with
  | nil => exact absurd rfl h
  | append_singleton l e ih =>
    rw [spec_power_append] at h ⊢
    cases e with
    | df_power_on =>
      refine ⟨l, [], rfl, by simp, by simp, ?_⟩
      intro hr
      cases hs : spec_power PowerState.off l <;> rw [hs] at hr <;> cases hr
    | df_power_off =>
      exfalso
      apply h
      cases spec_power PowerState.off l <;> rfl
    | df_init p =>
      have hne : spec_power PowerState.off l ≠ PowerState.off := by
        intro hs
        rw [hs] at h
        exact h rfl
      obtain ⟨a, b, hl, ho, hn, _⟩ := ih hne
      refine ⟨a, b ++ [Ev.df_init p], ?_, ?_, ?_, ?_⟩
      · rw [hl]
        simp
      · simp [ho]
      · simp [hn]
      · intro _
        exact ⟨p, by simp⟩
    | play_random p =>
      have hst : spec_power_next (spec_power PowerState.off l) (Ev.play_random p) =
          spec_power PowerState.off l := by
        cases spec_power PowerState.off l <;> rfl
      rw [hst] at h ⊢
      obtain ⟨a, b, hl, ho, hn, hr⟩ := ih h
      refine ⟨a, b ++ [Ev.play_random p], ?_, ?_, ?_, ?_⟩
      · rw [hl]
        simp
      · simp [ho]
      · simp [hn]
      · intro hrd
        obtain ⟨q, hq⟩ := hr hrd
        exact ⟨q, by simp [hq]⟩

/-- C19: in every execution of `main`, every `df_init` call is made with the power-rail bit PB1
high and after a `df_power_on` that no `df_power_off` has followed; every `play_random` call is
made with PB1 high and is preceded, since the most recent `df_power_on`, by a `df_init` with no
`df_power_off` in between; and every line sample ever recorded, hence every frame, was sent
with PB1 high. -/
theorem commands_in_power_state (portb : Nat) (ins : List Input) :
    (∀ pre pwr post, (main_run portb ins).log = pre ++ Ev.df_init pwr :: post →
      pwr = true ∧ ∃ a b, pre = a ++ Ev.df_power_on :: b ∧
        Ev.df_power_off ∉ b ∧ Ev.df_power_on ∉ b) ∧
    (∀ pre pwr post, (main_run portb ins).log = pre ++ Ev.play_random pwr :: post →
      pwr = true ∧ ∃ a b q, pre = a ++ Ev.df_power_on :: b ∧ Ev.df_init q ∈ b ∧
        Ev.df_power_off ∉ b ∧ Ev.df_power_on ∉ b) ∧
    (∀ x ∈ (main_run portb ins).mcu.wire, x.testBit PWR_BIT = true) ∧
    spec_log_ok PowerState.off (main_run portb ins).log = true ∧
    PWR_BIT = 1 := by
  obtain ⟨⟨_, hw, hok, _⟩, _⟩ := main_inv_run portb ins
  refine ⟨?_, ?_, hw, hok, rfl⟩
  · intro pre pwr post hlog
    rw [hlog] at hok
    have h := spec_log_ok_split _ pre post _ hok
    simp only [spec_event_ok, Bool.and_eq_true, decide_eq_true_eq] at h
    obtain ⟨a, b, hl, ho, hn, _⟩ := spec_power_on_split pre h.2
    exact ⟨h.1, a, b, hl, ho, hn⟩
  · intro pre pwr post hlog
    rw [hlog] at hok
    have h := spec_log_ok_split _ pre post _ hok
    simp only [spec_event_ok, Bool.and_eq_true, decide_eq_true_eq] at h
    obtain ⟨a, b, hl, ho, hn, hr⟩ := spec_power_on_split pre (by rw [h.2]; decide)
    obtain ⟨q, hq⟩ := hr h.2
    exact ⟨h.1, a, b, q, hl, hq, ho, hn⟩

/-- C12: the seed avoids the zero state.  From the initial register `0xACE1`, for every value
of the 8-bit counter the register after `seed_rng_once` has high byte `0xAC`, so it is non-zero;
and in every state the program reaches the register is a non-zero 16-bit value. -/
theorem seed_avoids_zero (c portb : Nat) (ins : List Input) :
    (Mcu.boot portb).lfsr = 0xACE1 ∧ (Mcu.boot portb).seeded = 0 ∧
    (seed_rng_once c (Mcu.boot portb)).lfsr / 256 = 0xAC ∧
    (seed_rng_once c (Mcu.boot portb)).lfsr ≠ 0 ∧
    (main_run portb ins).mcu.lfsr ≠ 0 ∧ (main_run portb ins).mcu.lfsr < 65536 ∧
    (∀ i, (rand16 (main_step i (main_run portb ins)).mcu).1 ≠ 0) := by
  obtain ⟨h1, h2, _⟩ := seed_from_boot c portb
  obtain ⟨⟨⟨r1, r2, _⟩, _⟩, _⟩ := main_inv_run portb ins
  refine ⟨rfl, rfl, h1, h2, r1, r2, ?_⟩
  intro i
  obtain ⟨⟨⟨q1, q2, _⟩, _⟩, _⟩ := main_inv_step i _ (main_inv_run portb ins)
  rw [rand16_fst, rand16_snd]
  exact lfsr_next_ne_zero _ q1 q2

end Microcasette
